import Mathlib

/-!
Verification of the WallLayerSplitter pyRevit command
(`SplitLayers.pushbutton/script.py`): a shallow embedding of the
wall-splitting core — name sanitisation and allocation, offset geometry,
layer selection for re-hosting, the layer-type cache, the deletion gate —
together with theorems settling the specification claims.

Numeric values that are Python floats in the source are embedded as exact
rationals (`ℚ`); Revit element identifiers are embedded as `Nat`; external
Revit API collaborators (geometry projection, the join solver, parameter
storage) are embedded as explicit record fields carrying their observable
results, as the specification scopes them out as external interfaces.
-/

/-! ### Python string primitives -/

/-- Whitespace test of Python `str` (used by `str.strip` and the regex `\s`)
for the code points a Python 3 `str` treats as whitespace. -/
def pyIsSpace (c : Char) : Bool :=
  [9, 10, 11, 12, 13, 28, 29, 30, 31, 32, 133, 160, 5760,
   8192, 8193, 8194, 8195, 8196, 8197, 8198, 8199, 8200, 8201, 8202,
   8232, 8233, 8239, 8287, 12288].contains c.toNat

/-- Python `str.strip` on the character list of a string. -/
def pyStripList (l : List Char) : List Char :=
  ((l.dropWhile pyIsSpace).reverse.dropWhile pyIsSpace).reverse

/-- Python `str.rstrip` on the character list of a string. -/
def pyRStripList (l : List Char) : List Char :=
  (l.reverse.dropWhile pyIsSpace).reverse

/-- Python `str.strip` on strings. -/
def pyStrip (s : String) : String := String.mk (pyStripList s.data)

/-- Python `str.lower` restricted to the alphabets appearing in this
codebase: ASCII letters and the Cyrillic block used by the user-facing
strings.  (CPython lowercases the full Unicode table; only these ranges
occur in the program's names and messages.) -/
def pyLowerChar (c : Char) : Char :=
  if 65 ≤ c.toNat ∧ c.toNat ≤ 90 then Char.ofNat (c.toNat + 32)
  else if 1040 ≤ c.toNat ∧ c.toNat ≤ 1071 then Char.ofNat (c.toNat + 32)
  else if c.toNat = 1025 then Char.ofNat 1105
  else c

/-- Python `str.lower` on strings. -/
def pyLower (s : String) : String := String.mk (s.data.map pyLowerChar)

/-- One pass of `re.sub(r"\s+", " ", s)`: every maximal run of whitespace
characters is replaced by a single ASCII space.  The boolean flag records
whether the previous character belonged to a whitespace run. -/
def collapseWSAux : Bool → List Char → List Char
  | _, [] => []
  | inRun, c :: rest =>
    if pyIsSpace c then
      if inRun then collapseWSAux true rest
      else ' ' :: collapseWSAux true rest
    else c :: collapseWSAux false rest

/-- `re.sub(r"\s+", " ", s)` on a character list. -/
def collapseWS (l : List Char) : List Char := collapseWSAux false l

/-- Decimal digit accumulation with explicit fuel (the fuel `n + 1` always
suffices, and the explicit fuel keeps the function structurally
recursive). -/
def natDigitsAux : Nat → Nat → List Char → List Char
  | 0, _, acc => acc
  | fuel + 1, n, acc =>
    if n < 10 then Nat.digitChar n :: acc
    else natDigitsAux fuel (n / 10) (Nat.digitChar (n % 10) :: acc)

/-- Decimal digits of a natural number, most significant first
(the embedding of Python `str(n)` / `"{}".format(n)` for `n : Nat`). -/
def natDigits (n : Nat) : List Char := natDigitsAux (n + 1) n []

/-- Python `str(n)` for a natural number. -/
def natToStr (n : Nat) : String := String.mk (natDigits n)

/-! ### `make_valid_wall_type_name` (script.py lines 108-136) -/

/-- The characters the command treats as illegal in a wall-type name
(`invalid_chars` in `make_valid_wall_type_name`). -/
def invalidNameChars : List Char :=
  [':', ';', Char.ofNat 123, Char.ofNat 125, '[', ']', '|',
   Char.ofNat 92, '/', '<', '>', '?', '*', Char.ofNat 34]

/-- A character is replaced by `_` when its code point is below 32 or it is
in `invalid_chars` (the test inside the sanitising loop). -/
def isInvalidNameChar (c : Char) : Bool :=
  decide (c.toNat < 32) || invalidNameChars.contains c

/-- The sanitising loop of `make_valid_wall_type_name`: every illegal
character becomes `_`. -/
def sanitizeChars (l : List Char) : List Char :=
  l.map (fun c => if isInvalidNameChar c then '_' else c)

def MAX_LAYER_TYPE_NAME_LENGTH : Nat := 200
def MAX_LAYER_TYPE_NAME_ATTEMPTS : Nat := 50
def SAFE_LAYER_TYPE_BASE_NAME_LENGTH : Nat := 60

/-- `make_valid_wall_type_name` on character lists: strip, substitute the
fallback when empty, replace illegal characters by `_`, collapse whitespace
runs, strip, substitute the fallback when empty, truncate to `maxLength`
(rstripping the cut), substitute the fallback when empty. -/
def make_valid_list (raw : List Char) (maxLength : Nat) (fallback : List Char) :
    List Char :=
  let trimmed0 := pyStripList raw
  let trimmed := if trimmed0 = [] then fallback else trimmed0
  let s1 := pyStripList (collapseWS (sanitizeChars trimmed))
  let s2 := if s1 = [] then fallback else s1
  let s3 := if maxLength ≠ 0 ∧ maxLength < s2.length
    then pyRStripList (s2.take maxLength) else s2
  if s3 = [] then fallback else s3

/-- `make_valid_wall_type_name(raw_name, max_length, fallback_name)`
(script.py lines 108-136).  Defaults mirror the Python signature. -/
def make_valid_wall_type_name (raw : String)
    (maxLength : Nat := SAFE_LAYER_TYPE_BASE_NAME_LENGTH)
    (fallback : String := "Тип слоя") : String :=
  String.mk (make_valid_list raw.data maxLength fallback.data)

/-! ### Basic lemmas about the string primitives -/

theorem mem_of_mem_dropWhile {p : Char → Bool} {l : List Char} {c : Char}
    (h : c ∈ l.dropWhile p) : c ∈ l :=
  (List.dropWhile_sublist p (l := l)).subset h

theorem mem_of_mem_pyStripList {l : List Char} {c : Char}
    (h : c ∈ pyStripList l) : c ∈ l := by
  unfold pyStripList at h
  rw [List.mem_reverse] at h
  have h2 := mem_of_mem_dropWhile h
  rw [List.mem_reverse] at h2
  exact mem_of_mem_dropWhile h2

theorem dropWhile_eq_self_of_no_ws {p : Char → Bool} {l : List Char}
    (h : ∀ c ∈ l, p c = false) : l.dropWhile p = l := by
  cases l with
  | nil => rfl
  | cons c rest =>
    rw [List.dropWhile_cons]
    simp [h c (List.mem_cons_self c rest)]

theorem pyStripList_eq_self_of_no_ws {l : List Char}
    (h : ∀ c ∈ l, pyIsSpace c = false) : pyStripList l = l := by
  unfold pyStripList
  rw [dropWhile_eq_self_of_no_ws h]
  rw [dropWhile_eq_self_of_no_ws (by intro c hc; exact h c (List.mem_reverse.mp hc))]
  exact List.reverse_reverse l

theorem pyRStripList_eq_self_of_no_ws {l : List Char}
    (h : ∀ c ∈ l, pyIsSpace c = false) : pyRStripList l = l := by
  unfold pyRStripList
  rw [dropWhile_eq_self_of_no_ws (by intro c hc; exact h c (List.mem_reverse.mp hc))]
  exact List.reverse_reverse l

theorem collapseWSAux_eq_self_of_no_ws {l : List Char}
    (h : ∀ c ∈ l, pyIsSpace c = false) : ∀ b, collapseWSAux b l = l := by
  induction l with
  | nil => intro b; rfl
  | cons c rest ih =>
    intro b
    unfold collapseWSAux
    rw [if_neg]
    · rw [ih (fun d hd => h d (List.mem_cons_of_mem c hd)) false]
    · simp [h c (List.mem_cons_self c rest)]

theorem collapseWS_eq_self_of_no_ws {l : List Char}
    (h : ∀ c ∈ l, pyIsSpace c = false) : collapseWS l = l :=
  collapseWSAux_eq_self_of_no_ws h false

theorem sanitizeChars_all_invalid {l : List Char}
    (h : ∀ c ∈ l, isInvalidNameChar c = true) :
    sanitizeChars l = List.replicate l.length '_' := by
  induction l with
  | nil => rfl
  | cons c rest ih =>
    unfold sanitizeChars at *
    simp only [List.map_cons, List.length_cons, List.replicate_succ]
    rw [if_pos (h c (List.mem_cons_self c rest)),
      ih (fun d hd => h d (List.mem_cons_of_mem c hd))]

theorem replicate_underscore_no_ws (n : Nat) :
    ∀ c ∈ List.replicate n '_', pyIsSpace c = false := by
  intro c hc
  rw [List.eq_of_mem_replicate hc]
  decide

/-- Claim C6 supporting lemma: `make_valid_wall_type_name` on a non-empty
all-illegal-character input returns the fallback exactly when Python's
`strip` removes every character, and otherwise a run of underscores. -/
theorem make_valid_all_invalid (cs : List Char) (hne : cs ≠ [])
    (hall : ∀ c ∈ cs, isInvalidNameChar c = true) :
    make_valid_wall_type_name (String.mk cs) =
      if pyStripList cs = [] then "Тип слоя"
      else String.mk (List.replicate (min (pyStripList cs).length 60) '_') := by
  unfold make_valid_wall_type_name make_valid_list
  simp only [SAFE_LAYER_TYPE_BASE_NAME_LENGTH]
  by_cases hs : pyStripList cs = []
  · rw [if_pos hs]
    simp only [hs, if_pos rfl]
    decide
  · rw [if_neg hs]
    have hsub : ∀ c ∈ pyStripList cs, isInvalidNameChar c = true :=
      fun c hc => hall c (mem_of_mem_pyStripList hc)
    set n := (pyStripList cs).length with hn
    have hlen : n ≠ 0 := fun h0 => hs (List.eq_nil_of_length_eq_zero h0)
    have hrep_ne : List.replicate n '_' ≠ [] := by
      intro h0
      have := congrArg List.length h0
      simp only [List.length_replicate, List.length_nil] at this
      exact hlen this
    simp only [if_neg hs, sanitizeChars_all_invalid hsub, ← hn,
      collapseWS_eq_self_of_no_ws (replicate_underscore_no_ws n),
      pyStripList_eq_self_of_no_ws (replicate_underscore_no_ws n),
      if_neg hrep_ne]
    by_cases htr : (60 : Nat) < n
    · rw [if_pos (show (60 : Nat) ≠ 0 ∧ 60 < (List.replicate n '_').length from
        ⟨by norm_num, by simpa [List.length_replicate] using htr⟩)]
      rw [List.take_replicate]
      rw [pyRStripList_eq_self_of_no_ws (replicate_underscore_no_ws _)]
      have h60 : min 60 n = 60 := by omega
      have hmin : min n 60 = 60 := by omega
      rw [h60, hmin]
      rw [if_neg (show List.replicate 60 '_' ≠ [] by decide)]
    · rw [if_neg (show ¬((60 : Nat) ≠ 0 ∧ 60 < (List.replicate n '_').length) from
        fun hcon => htr (by simpa [List.length_replicate] using hcon.2))]
      rw [if_neg hrep_ne]
      have hmin : min n 60 = n := by omega
      rw [hmin]

/-- Claim C6, counterexample: the input `"*"` consists only of illegal
characters, yet `make_valid_wall_type_name` returns `"_"`, not the fixed
fallback base name `"Тип слоя"` — illegal characters are replaced by `_`,
not removed, so an all-illegal input does not become empty. -/
theorem C6_counterexample :
    make_valid_wall_type_name "*" = "_" ∧ ("_" : String) ≠ "Тип слоя" := by
  constructor
  · decide
  · decide

/-- Claim C6 (amended): `make_valid_wall_type_name` maps `"A/B:C"` to
`"A_B_C"`; and for every non-empty input consisting only of illegal
characters (code point below 32 or in the illegal set), the result is the
fixed fallback base name exactly when Python's `strip` removes every
character, and otherwise a run of `min(k, 60)` underscores, `k` being the
number of characters surviving the strip. -/
theorem C6_sanitization :
    make_valid_wall_type_name "A/B:C" = "A_B_C" ∧
    ∀ cs : List Char, cs ≠ [] → (∀ c ∈ cs, isInvalidNameChar c = true) →
      make_valid_wall_type_name (String.mk cs) =
        if pyStripList cs = [] then "Тип слоя"
        else String.mk (List.replicate (min (pyStripList cs).length 60) '_') :=
  ⟨by decide, make_valid_all_invalid⟩

/-- Witness for C6: a concrete all-illegal input with a leading tab
(stripped by Python) and two asterisks maps to two underscores. -/
theorem C6_witness :
    make_valid_wall_type_name (String.mk ['\t', '*', '*']) =
      String.mk (List.replicate 2 '_') := by
  rw [C6_sanitization.2 ['\t', '*', '*'] (by decide) (by decide)]
  decide

/-! ### Multi-user ownership checks (script.py lines 1528-1541) -/

/-- `normalize_username` (script.py lines 1528-1531): empty stays empty,
otherwise strip surrounding whitespace and lowercase. -/
def normalize_username (username : String) : String :=
  if username = "" then "" else pyLower (pyStrip username)

/-- `is_owned_by_another_user` (script.py lines 1534-1541): an empty
normalized owner is never "another user"; an empty current username is
conservatively treated as not the owner; otherwise compare the
normalized names. -/
def is_owned_by_another_user (owner_name current_username : String) : Bool :=
  let owner := normalize_username owner_name
  if owner = "" then false
  else
    let current := normalize_username current_username
    if current = "" then true
    else owner != current

/-- Claim C9: `is_owned_by_another_user` compares the owner and the current
username after trimming and lowercasing, so any two names with equal
normalizations (equal up to letter case and surrounding whitespace) are
never reported as owned by another user. -/
theorem C9_ownership_normalized (owner current : String)
    (h : normalize_username owner = normalize_username current) :
    is_owned_by_another_user owner current = false := by
  unfold is_owned_by_another_user
  by_cases ho : normalize_username owner = ""
  · simp [ho]
  · have hc : normalize_username current ≠ "" := by rw [← h]; exact ho
    simp [ho, hc, h]

/-- Witness for C9: `"  Alice "` and `"ALICE"` differ only in case and
surrounding whitespace, and the wall is not treated as owned by another
user. -/
theorem C9_witness :
    is_owned_by_another_user "  Alice " "ALICE" = false :=
  C9_ownership_normalized "  Alice " "ALICE" (by decide)

/-! ### Cleanness invariants of sanitized names

A sanitized name contains no illegal character, every whitespace character
in it is a single ASCII space, no two whitespace characters are adjacent,
and it neither starts nor ends with whitespace.  These invariants are what
`make_valid_wall_type_name` establishes and what makes it a no-op on its
own output. -/

/-- Two adjacent characters are not both whitespace. -/
def wsSeparated (a b : Char) : Prop := pyIsSpace a = false ∨ pyIsSpace b = false

instance : DecidableRel wsSeparated := fun a b =>
  inferInstanceAs (Decidable (pyIsSpace a = false ∨ pyIsSpace b = false))

/-- Invariant satisfied by every output of `make_valid_wall_type_name`. -/
def cleanName (l : List Char) : Prop :=
  (∀ c ∈ l, isInvalidNameChar c = false) ∧
  (∀ c ∈ l, pyIsSpace c = true → c = ' ') ∧
  List.Chain' wsSeparated l ∧
  (∀ c, l.head? = some c → pyIsSpace c = false) ∧
  (∀ c, l.getLast? = some c → pyIsSpace c = false)

theorem dropWhile_eq_self_of_head {p : Char → Bool} {l : List Char}
    (h : ∀ c, l.head? = some c → p c = false) : l.dropWhile p = l := by
  cases l with
  | nil => rfl
  | cons c rest =>
    rw [List.dropWhile_cons]
    simp [h c rfl]

theorem head?_dropWhile_false {p : Char → Bool} {l : List Char} {c : Char}
    (h : (l.dropWhile p).head? = some c) : p c = false := by
  induction l with
  | nil => simp [List.dropWhile] at h
  | cons a rest ih =>
    rw [List.dropWhile_cons] at h
    by_cases ha : p a
    · rw [if_pos ha] at h
      exact ih h
    · rw [if_neg ha] at h
      simp only [List.head?_cons, Option.some.injEq] at h
      rw [← h]
      exact Bool.eq_false_iff.mpr ha

theorem pyRStripList_append (l : List Char) :
    l = pyRStripList l ++ (l.reverse.takeWhile pyIsSpace).reverse := by
  unfold pyRStripList
  conv_lhs => rw [← List.reverse_reverse l,
    ← List.takeWhile_append_dropWhile (p := pyIsSpace) (l := l.reverse)]
  rw [List.reverse_append]

theorem mem_of_mem_pyRStripList {l : List Char} {c : Char}
    (h : c ∈ pyRStripList l) : c ∈ l := by
  unfold pyRStripList at h
  rw [List.mem_reverse] at h
  have h2 := mem_of_mem_dropWhile h
  rw [List.mem_reverse] at h2
  exact h2

theorem head_of_prefix_eq {a b r : List Char} (h : a = b ++ r) (hb : b ≠ []) :
    a.head? = b.head? := by
  subst h
  cases b with
  | nil => exact absurd rfl hb
  | cons x xs => rfl

theorem head?_pyRStripList {l : List Char} {c : Char}
    (h : (pyRStripList l).head? = some c) : l.head? = some c := by
  by_cases hne : pyRStripList l = []
  · rw [hne] at h
    simp at h
  · rw [head_of_prefix_eq (pyRStripList_append l) hne]
    exact h

theorem getLast?_pyRStripList_false {l : List Char} {c : Char}
    (h : (pyRStripList l).getLast? = some c) : pyIsSpace c = false := by
  unfold pyRStripList at h
  rw [List.getLast?_reverse] at h
  exact head?_dropWhile_false h

/-- `strip` is the composition of a left strip and a right strip. -/
theorem pyStripList_eq_rstrip_drop (l : List Char) :
    pyStripList l = pyRStripList (l.dropWhile pyIsSpace) := rfl

theorem head?_pyStripList_false {l : List Char} {c : Char}
    (h : (pyStripList l).head? = some c) : pyIsSpace c = false := by
  rw [pyStripList_eq_rstrip_drop] at h
  exact head?_dropWhile_false (head?_pyRStripList h)

theorem getLast?_pyStripList_false {l : List Char} {c : Char}
    (h : (pyStripList l).getLast? = some c) : pyIsSpace c = false := by
  rw [pyStripList_eq_rstrip_drop] at h
  exact getLast?_pyRStripList_false h

theorem pyStripList_eq_self_of_edge {l : List Char}
    (h1 : ∀ c, l.head? = some c → pyIsSpace c = false)
    (h2 : ∀ c, l.getLast? = some c → pyIsSpace c = false) :
    pyStripList l = l := by
  unfold pyStripList
  rw [dropWhile_eq_self_of_head h1]
  rw [dropWhile_eq_self_of_head (by
    intro c hc
    rw [List.head?_reverse] at hc
    exact h2 c hc)]
  exact List.reverse_reverse l

theorem pyRStripList_eq_self_of_edge {l : List Char}
    (h2 : ∀ c, l.getLast? = some c → pyIsSpace c = false) :
    pyRStripList l = l := by
  unfold pyRStripList
  rw [dropWhile_eq_self_of_head (by
    intro c hc
    rw [List.head?_reverse] at hc
    exact h2 c hc)]
  exact List.reverse_reverse l

theorem collapseWSAux_ws_is_space {l : List Char} {c : Char} :
    ∀ b, c ∈ collapseWSAux b l → pyIsSpace c = true → c = ' ' := by
  induction l with
  | nil => intro b hc; simp [collapseWSAux] at hc
  | cons a rest ih =>
    intro b hc hws
    unfold collapseWSAux at hc
    by_cases ha : pyIsSpace a
    · rw [if_pos ha] at hc
      by_cases hb : b
      · subst hb
        rw [if_pos rfl] at hc
        exact ih true hc hws
      · rw [Bool.not_eq_true] at hb
        subst hb
        simp only [Bool.false_eq_true, if_false, List.mem_cons] at hc
        rcases hc with hc | hc
        · exact hc
        · exact ih true hc hws
    · rw [if_neg ha, List.mem_cons] at hc
      rcases hc with hc | hc
      · subst hc
        exact absurd hws (by simpa using ha)
      · exact ih false hc hws

theorem collapseWSAux_mem {l : List Char} {c : Char} :
    ∀ b, c ∈ collapseWSAux b l → c = ' ' ∨ c ∈ l := by
  induction l with
  | nil => intro b hc; simp [collapseWSAux] at hc
  | cons a rest ih =>
    intro b hc
    unfold collapseWSAux at hc
    by_cases ha : pyIsSpace a
    · rw [if_pos ha] at hc
      by_cases hb : b
      · subst hb
        rw [if_pos rfl] at hc
        rcases ih true hc with h | h
        · exact Or.inl h
        · exact Or.inr (List.mem_cons_of_mem a h)
      · rw [Bool.not_eq_true] at hb
        subst hb
        simp only [Bool.false_eq_true, if_false, List.mem_cons] at hc
        rcases hc with hc | hc
        · exact Or.inl hc
        · rcases ih true hc with h | h
          · exact Or.inl h
          · exact Or.inr (List.mem_cons_of_mem a h)
    · rw [if_neg ha, List.mem_cons] at hc
      rcases hc with hc | hc
      · exact Or.inr (hc ▸ List.mem_cons_self a rest)
      · rcases ih false hc with h | h
        · exact Or.inl h
        · exact Or.inr (List.mem_cons_of_mem a h)

theorem collapseWSAux_head_true {l : List Char} {c : Char}
    (h : (collapseWSAux true l).head? = some c) : pyIsSpace c = false := by
  induction l with
  | nil => simp [collapseWSAux] at h
  | cons a rest ih =>
    unfold collapseWSAux at h
    by_cases ha : pyIsSpace a
    · rw [if_pos ha, if_pos rfl] at h
      exact ih h
    · rw [if_neg ha] at h
      simp only [List.head?_cons, Option.some.injEq] at h
      rw [← h]
      exact Bool.eq_false_iff.mpr ha

theorem collapseWSAux_chain (l : List Char) :
    ∀ b, List.Chain' wsSeparated (collapseWSAux b l) := by
  induction l with
  | nil => intro b; exact List.chain'_nil
  | cons a rest ih =>
    intro b
    unfold collapseWSAux
    by_cases ha : pyIsSpace a
    · rw [if_pos ha]
      by_cases hb : b
      · subst hb
        rw [if_pos rfl]
        exact ih true
      · rw [Bool.not_eq_true] at hb
        subst hb
        simp only [Bool.false_eq_true, if_false]
        rw [List.chain'_cons']
        refine ⟨?_, ih true⟩
        intro y hy
        exact Or.inr (collapseWSAux_head_true hy)
    · rw [if_neg ha]
      rw [List.chain'_cons']
      refine ⟨?_, ih false⟩
      intro y _
      exact Or.inl (by simpa using ha)

theorem chain'_dropWhile {R : Char → Char → Prop} {p : Char → Bool} {l : List Char}
    (h : List.Chain' R l) : List.Chain' R (l.dropWhile p) := by
  induction l with
  | nil => exact List.chain'_nil
  | cons a rest ih =>
    rw [List.dropWhile_cons]
    by_cases ha : p a
    · rw [if_pos ha]
      exact ih h.tail
    · rw [if_neg ha]
      exact h

theorem chain'_wsSeparated_reverse {l : List Char}
    (h : List.Chain' wsSeparated l) : List.Chain' wsSeparated l.reverse := by
  rw [List.chain'_reverse]
  have hflip : flip wsSeparated = wsSeparated := by
    funext a b
    exact propext or_comm
  rw [hflip]
  exact h

theorem chain'_pyStripList {l : List Char}
    (h : List.Chain' wsSeparated l) : List.Chain' wsSeparated (pyStripList l) := by
  unfold pyStripList
  exact chain'_wsSeparated_reverse (chain'_dropWhile (chain'_wsSeparated_reverse (chain'_dropWhile h)))

theorem chain'_pyRStripList {l : List Char}
    (h : List.Chain' wsSeparated l) : List.Chain' wsSeparated (pyRStripList l) := by
  unfold pyRStripList
  exact chain'_wsSeparated_reverse (chain'_dropWhile (chain'_wsSeparated_reverse h))

theorem chain'_take {R : Char → Char → Prop} {l : List Char}
    (h : List.Chain' R l) : ∀ n, List.Chain' R (l.take n) := by
  induction l with
  | nil => intro n; simp [List.chain'_nil]
  | cons a rest ih =>
    intro n
    cases n with
    | zero => exact List.chain'_nil
    | succ m =>
      rw [List.take_succ_cons, List.chain'_cons']
      constructor
      · intro y hy
        rcases List.chain'_cons'.mp h with ⟨hhead, _⟩
        apply hhead
        cases rest with
        | nil => simp [List.take_nil] at hy
        | cons b bs =>
          cases m with
          | zero => simp at hy
          | succ k =>
            rw [List.take_succ_cons, List.head?_cons] at hy
            rw [List.head?_cons]
            exact hy
      · exact ih h.tail m

theorem sanitizeChars_no_invalid (l : List Char) :
    ∀ c ∈ sanitizeChars l, isInvalidNameChar c = false := by
  intro c hc
  unfold sanitizeChars at hc
  rcases List.mem_map.mp hc with ⟨a, _, ha⟩
  by_cases h : isInvalidNameChar a
  · rw [if_pos h] at ha
    rw [← ha]
    decide
  · rw [if_neg h] at ha
    rw [← ha]
    exact Bool.eq_false_iff.mpr h

/-- The strip-collapse-sanitize pipeline of `make_valid_wall_type_name`
always yields a clean name. -/
theorem pipeline_clean (inp : List Char) :
    cleanName (pyStripList (collapseWS (sanitizeChars inp))) := by
  refine ⟨?_, ?_, ?_, ?_, ?_⟩
  · intro c hc
    rcases collapseWSAux_mem false (mem_of_mem_pyStripList hc) with h | h
    · rw [h]; decide
    · exact sanitizeChars_no_invalid inp c h
  · intro c hc hws
    exact collapseWSAux_ws_is_space false (mem_of_mem_pyStripList hc) hws
  · exact chain'_pyStripList (collapseWSAux_chain _ false)
  · intro c hc
    exact head?_pyStripList_false hc
  · intro c hc
    exact getLast?_pyStripList_false hc

/-- Right-stripping a truncation of a clean name yields a clean name. -/
theorem clean_pyRStripList_take {l : List Char} (h : cleanName l) (m : Nat) :
    cleanName (pyRStripList (l.take m)) := by
  obtain ⟨hinv, hws, hchain, hhead, _⟩ := h
  refine ⟨?_, ?_, ?_, ?_, ?_⟩
  · intro c hc
    exact hinv c (List.mem_of_mem_take (mem_of_mem_pyRStripList hc))
  · intro c hc
    exact hws c (List.mem_of_mem_take (mem_of_mem_pyRStripList hc))
  · exact chain'_pyRStripList (chain'_take hchain m)
  · intro c hc
    apply hhead
    have h1 := head?_pyRStripList hc
    cases l with
    | nil => simp [List.take_nil] at h1
    | cons a rest =>
      cases m with
      | zero => simp at h1
      | succ k =>
        rw [List.take_succ_cons, List.head?_cons] at h1
        rw [List.head?_cons]
        exact h1
  · intro c hc
    exact getLast?_pyRStripList_false hc

/-- Every output of `make_valid_list` is a clean name, provided the
fallback name is clean. -/
theorem make_valid_list_clean (raw : List Char) (maxLength : Nat)
    {fallback : List Char} (hfb : cleanName fallback) :
    cleanName (make_valid_list raw maxLength fallback) := by
  unfold make_valid_list
  dsimp only
  set trimmed := if pyStripList raw = [] then fallback else pyStripList raw with htr
  set s1 := pyStripList (collapseWS (sanitizeChars trimmed)) with hs1
  have hclean1 : cleanName s1 := pipeline_clean _
  set s2 := if s1 = [] then fallback else s1 with hs2
  have hclean2 : cleanName s2 := by
    rw [hs2]
    split
    · exact hfb
    · exact hclean1
  set s3 := if maxLength ≠ 0 ∧ maxLength < s2.length
    then pyRStripList (s2.take maxLength) else s2 with hs3
  have hclean3 : cleanName s3 := by
    rw [hs3]
    split
    · exact clean_pyRStripList_take hclean2 maxLength
    · exact hclean2
  split
  · exact hfb
  · exact hclean3

/-- The output of `make_valid_list` never exceeds `maxLength` characters
when the (non-degenerate) fallback fits within `maxLength`. -/
theorem make_valid_list_length (raw : List Char) {maxLength : Nat}
    {fallback : List Char} (hm : maxLength ≠ 0)
    (hfb : fallback.length ≤ maxLength) :
    (make_valid_list raw maxLength fallback).length ≤ maxLength := by
  unfold make_valid_list
  dsimp only
  set trimmed := if pyStripList raw = [] then fallback else pyStripList raw with htr
  set s1 := pyStripList (collapseWS (sanitizeChars trimmed)) with hs1
  set s2 := if s1 = [] then fallback else s1 with hs2
  have hlen3 : (if maxLength ≠ 0 ∧ maxLength < s2.length
      then pyRStripList (s2.take maxLength) else s2).length ≤ maxLength := by
    split
    · calc (pyRStripList (s2.take maxLength)).length
          ≤ (s2.take maxLength).length := by
            conv_rhs => rw [pyRStripList_append (s2.take maxLength)]
            rw [List.length_append]
            omega
        _ ≤ maxLength := by
            rw [List.length_take]
            omega
    · rename_i hcon
      rcases not_and_or.mp hcon with h | h
      · exact absurd hm (by simpa using h)
      · omega
  set s3 := if maxLength ≠ 0 ∧ maxLength < s2.length
    then pyRStripList (s2.take maxLength) else s2 with hs3
  split
  · exact hfb
  · exact hlen3

/-- The output of `make_valid_list` is non-empty when the fallback is. -/
theorem make_valid_list_ne_nil (raw : List Char) (maxLength : Nat)
    {fallback : List Char} (hfb : fallback ≠ []) :
    make_valid_list raw maxLength fallback ≠ [] := by
  have hshape : ∃ X, make_valid_list raw maxLength fallback =
      if X = [] then fallback else X := ⟨_, rfl⟩
  obtain ⟨X, hX⟩ := hshape
  rw [hX]
  split
  · exact hfb
  · assumption

/-- `collapseWSAux` is a no-op on a list whose whitespace is normalized
(all spaces are `' '`, never two adjacent) when the run-flag is consistent
with the head. -/
theorem collapseWSAux_eq_self_of_clean :
    ∀ (m : List Char) (b : Bool),
      (∀ c ∈ m, pyIsSpace c = true → c = ' ') →
      List.Chain' wsSeparated m →
      (b = true → ∀ c, m.head? = some c → pyIsSpace c = false) →
      collapseWSAux b m = m := by
  intro m
  induction m with
  | nil => intro b _ _ _; rfl
  | cons a rest ih =>
    intro b hw hch hb
    unfold collapseWSAux
    by_cases ha : pyIsSpace a
    · rw [if_pos ha]
      have hb' : b = false := by
        cases b with
        | false => rfl
        | true => exact absurd (hb rfl a rfl) (by simpa using ha)
      subst hb'
      simp only [Bool.false_eq_true, if_false]
      have ha' : a = ' ' := hw a (List.mem_cons_self a rest) ha
      rw [ha']
      congr 1
      apply ih true
      · intro c hc
        exact hw c (List.mem_cons_of_mem a hc)
      · exact hch.tail
      · intro _ c hhd
        rcases List.chain'_cons'.mp hch with ⟨hpair, _⟩
        rcases hpair c hhd with hcase | hcase
        · exact absurd hcase (by simpa using ha)
        · exact hcase
    · rw [if_neg ha]
      congr 1
      apply ih false
      · intro c hc
        exact hw c (List.mem_cons_of_mem a hc)
      · exact hch.tail
      · intro hfalse
        exact absurd hfalse (by simp)

/-- `make_valid_list` is a no-op on a non-empty clean name that fits
within the length bound — the fixed-point property of the sanitizer. -/
theorem make_valid_list_fixed {l : List Char} (maxLength : Nat)
    (fallback : List Char) (hc : cleanName l) (hne : l ≠ [])
    (hlen : maxLength = 0 ∨ l.length ≤ maxLength) :
    make_valid_list l maxLength fallback = l := by
  obtain ⟨hinv, hws, hchain, hhead, hlast⟩ := hc
  have hstrip : pyStripList l = l := pyStripList_eq_self_of_edge hhead hlast
  have hsan : sanitizeChars l = l := by
    unfold sanitizeChars
    conv_rhs => rw [← List.map_id l]
    apply List.map_congr_left
    intro c hcmem
    rw [if_neg (by simp [hinv c hcmem])]
    rfl
  have hcoll : collapseWS l = l :=
    collapseWSAux_eq_self_of_clean l false hws hchain (by
      intro hfalse
      exact absurd hfalse (by simp))
  have hcond : ¬(maxLength ≠ 0 ∧ maxLength < l.length) := by
    rintro ⟨hm0, hlt⟩
    rcases hlen with h | h
    · exact hm0 h
    · omega
  unfold make_valid_list
  dsimp only
  rw [hstrip, if_neg hne, hsan, hcoll, hstrip, if_neg hne, if_neg hcond,
    if_neg hne]

/-! ### Digit lemmas -/

theorem digitChar_not_ws {m : Nat} (h : m < 10) :
    pyIsSpace (Nat.digitChar m) = false := by
  interval_cases m <;> decide

theorem digitChar_not_invalid {m : Nat} (h : m < 10) :
    isInvalidNameChar (Nat.digitChar m) = false := by
  interval_cases m <;> decide

theorem natDigitsAux_mem : ∀ (f n : Nat) (acc : List Char) (c : Char),
    c ∈ natDigitsAux f n acc → (∃ m, m < 10 ∧ c = Nat.digitChar m) ∨ c ∈ acc := by
  intro f
  induction f with
  | zero => intro n acc c hc; exact Or.inr hc
  | succ f ih =>
    intro n acc c hc
    unfold natDigitsAux at hc
    by_cases hn : n < 10
    · rw [if_pos hn] at hc
      rcases List.mem_cons.mp hc with h | h
      · exact Or.inl ⟨n, hn, h⟩
      · exact Or.inr h
    · rw [if_neg hn] at hc
      rcases ih (n / 10) (Nat.digitChar (n % 10) :: acc) c hc with h | h
      · exact Or.inl h
      · rcases List.mem_cons.mp h with h2 | h2
        · exact Or.inl ⟨n % 10, Nat.mod_lt n (by omega), h2⟩
        · exact Or.inr h2

theorem natDigits_not_ws {n : Nat} : ∀ c ∈ natDigits n, pyIsSpace c = false := by
  intro c hc
  rcases natDigitsAux_mem (n + 1) n [] c hc with ⟨m, hm, hcm⟩ | h
  · rw [hcm]; exact digitChar_not_ws hm
  · simp at h

theorem natDigits_not_invalid {n : Nat} :
    ∀ c ∈ natDigits n, isInvalidNameChar c = false := by
  intro c hc
  rcases natDigitsAux_mem (n + 1) n [] c hc with ⟨m, hm, hcm⟩ | h
  · rw [hcm]; exact digitChar_not_invalid hm
  · simp at h

theorem natDigitsAux_small {f n : Nat} (acc : List Char) (hf : 1 ≤ f)
    (hn : n < 10) : natDigitsAux f n acc = Nat.digitChar n :: acc := by
  cases f with
  | zero => omega
  | succ f => unfold natDigitsAux; rw [if_pos hn]

theorem natDigits_length_le_two {n : Nat} (h : n < 100) :
    (natDigits n).length ≤ 2 := by
  unfold natDigits
  by_cases hn : n < 10
  · rw [natDigitsAux_small [] (by omega) hn]
    simp
  · have h1 : natDigitsAux (n + 1) n [] =
        natDigitsAux n (n / 10) [Nat.digitChar (n % 10)] := by
      conv_lhs => unfold natDigitsAux
      rw [if_neg hn]
    rw [h1, natDigitsAux_small _ (by omega) (by omega)]
    simp

/-! ### Name allocation (script.py lines 771-793) -/

/-- The suffix `" ({})".format(attempt)` appended from the second naming
attempt on. -/
def candidateSuffix (attempt : Nat) : List Char :=
  ' ' :: '(' :: (natDigits attempt ++ [')'])

/-- `prepare_layer_type_base_name` (script.py lines 771-783): strip the
desired name and sanitize it to the safe base length. -/
def prepare_layer_type_base_name (desired : String) : String :=
  make_valid_wall_type_name (pyStrip desired) SAFE_LAYER_TYPE_BASE_NAME_LENGTH

/-- `build_candidate_layer_type_name` (script.py lines 785-793): attempt 1
is the base name itself; later attempts append `" (attempt)"`, truncating
the base so the result stays within the maximum name length (falling back
to the raw truncation when right-stripping empties it). -/
def build_candidate_layer_type_name (base : String) (attempt : Nat) : String :=
  if attempt ≤ 1 then base
  else
    let suffix := candidateSuffix attempt
    let maxBase := max 1 (MAX_LAYER_TYPE_NAME_LENGTH - suffix.length)
    let trimmed0 := pyRStripList (base.data.take maxBase)
    let trimmed := if trimmed0 = [] then base.data.take maxBase else trimmed0
    String.mk (trimmed ++ suffix)

theorem fallback_clean : cleanName ("Тип слоя".data) := by
  refine ⟨by decide, by decide, ?_, ?_, ?_⟩
  · rw [show ("Тип слоя".data) = ['Т', 'и', 'п', ' ', 'с', 'л', 'о', 'я'] from rfl]
    simp only [List.chain'_cons, List.chain'_singleton, and_true]
    refine ⟨?_, ?_, ?_, ?_, ?_, ?_, ?_⟩ <;> first
      | exact Or.inl (by decide)
      | exact Or.inr (by decide)
  · intro c hc
    rw [show ("Тип слоя".data).head? = some 'Т' from rfl] at hc
    simp only [Option.some.injEq] at hc
    rw [← hc]
    decide
  · intro c hc
    rw [show ("Тип слоя".data).getLast? = some 'я' from rfl] at hc
    simp only [Option.some.injEq] at hc
    rw [← hc]
    decide

/-- String-level restatement of the output lemmas, with every argument
generic (instantiating them at concrete arguments never has to unfold
`make_valid_list` definitionally). -/
theorem make_valid_name_data (raw : String) (m : Nat) (fb : String) :
    (make_valid_wall_type_name raw m fb).data = make_valid_list raw.data m fb.data :=
  rfl

theorem make_valid_name_clean (raw : String) (m : Nat) (fb : String)
    (hfb : cleanName fb.data) :
    cleanName (make_valid_wall_type_name raw m fb).data := by
  rw [make_valid_name_data]
  exact make_valid_list_clean raw.data m hfb

theorem make_valid_name_ne_nil (raw : String) (m : Nat) (fb : String)
    (hfb : fb.data ≠ []) : (make_valid_wall_type_name raw m fb).data ≠ [] := by
  rw [make_valid_name_data]
  exact make_valid_list_ne_nil raw.data m hfb

theorem make_valid_name_length (raw : String) (m : Nat) (fb : String)
    (hm : m ≠ 0) (hfb : fb.data.length ≤ m) :
    (make_valid_wall_type_name raw m fb).data.length ≤ m := by
  rw [make_valid_name_data]
  exact make_valid_list_length raw.data hm hfb

theorem make_valid_name_fixed (s : String) (m : Nat) (fb : String)
    (hc : cleanName s.data) (hne : s.data ≠ [])
    (hlen : m = 0 ∨ s.data.length ≤ m) :
    make_valid_wall_type_name s m fb = s := by
  have h1 : make_valid_wall_type_name s m fb =
      String.mk (make_valid_list s.data m fb.data) := rfl
  rw [h1, make_valid_list_fixed m fb.data hc hne hlen]

/-- The prepared base name is clean, non-empty and at most 60 characters. -/
theorem prepare_base_props (desired : String) :
    cleanName (prepare_layer_type_base_name desired).data ∧
    (prepare_layer_type_base_name desired).data ≠ [] ∧
    (prepare_layer_type_base_name desired).data.length ≤
      SAFE_LAYER_TYPE_BASE_NAME_LENGTH := by
  refine ⟨?_, ?_, ?_⟩
  · exact make_valid_name_clean (pyStrip desired)
      SAFE_LAYER_TYPE_BASE_NAME_LENGTH "Тип слоя" fallback_clean
  · exact make_valid_name_ne_nil (pyStrip desired)
      SAFE_LAYER_TYPE_BASE_NAME_LENGTH "Тип слоя" (by decide)
  · exact make_valid_name_length (pyStrip desired)
      SAFE_LAYER_TYPE_BASE_NAME_LENGTH "Тип слоя" (by decide) (by decide)

theorem candidateSuffix_length_le {k : Nat} (hk : k ≤ 99) :
    (candidateSuffix k).length ≤ 5 := by
  unfold candidateSuffix
  have := natDigits_length_le_two (n := k) (by omega)
  simp only [List.length_cons, List.length_append, List.length_nil]
  omega

theorem chain'_of_no_ws {l : List Char} (h : ∀ c ∈ l, pyIsSpace c = false) :
    List.Chain' wsSeparated l := by
  induction l with
  | nil => exact List.chain'_nil
  | cons a rest ih =>
    rw [List.chain'_cons']
    refine ⟨?_, ih (fun c hc => h c (List.mem_cons_of_mem a hc))⟩
    intro y _
    exact Or.inl (h a (List.mem_cons_self a rest))

/-- Appending a candidate suffix to a non-empty clean name yields a clean
name. -/
theorem clean_append_candidateSuffix {l : List Char} (hc : cleanName l)
    (hne : l ≠ []) (k : Nat) : cleanName (l ++ candidateSuffix k) := by
  obtain ⟨hinv, hws, hchain, hhead, hlast⟩ := hc
  have hsuffix_not_ws : ∀ c ∈ '(' :: (natDigits k ++ [')']), pyIsSpace c = false := by
    intro c hc
    rcases List.mem_cons.mp hc with h | h
    · rw [h]; decide
    · rcases List.mem_append.mp h with h2 | h2
      · exact natDigits_not_ws c h2
      · rw [List.mem_singleton.mp h2]; decide
  refine ⟨?_, ?_, ?_, ?_, ?_⟩
  · intro c hcmem
    rcases List.mem_append.mp hcmem with h | h
    · exact hinv c h
    · unfold candidateSuffix at h
      rcases List.mem_cons.mp h with h2 | h2
      · rw [h2]; decide
      · rcases List.mem_cons.mp h2 with h3 | h3
        · rw [h3]; decide
        · rcases List.mem_append.mp h3 with h4 | h4
          · exact natDigits_not_invalid c h4
          · rw [List.mem_singleton.mp h4]; decide
  · intro c hcmem hcws
    rcases List.mem_append.mp hcmem with h | h
    · exact hws c h hcws
    · unfold candidateSuffix at h
      rcases List.mem_cons.mp h with h2 | h2
      · exact h2
      · exact absurd hcws (by simp [hsuffix_not_ws c h2])
  · rw [List.chain'_append]
    refine ⟨hchain, ?_, ?_⟩
    · unfold candidateSuffix
      rw [List.chain'_cons']
      refine ⟨?_, chain'_of_no_ws hsuffix_not_ws⟩
      intro y hy
      have hy' : y = '(' := by simpa using hy.symm
      rw [hy']
      exact Or.inr (by decide)
    · intro x hx y _
      exact Or.inl (hlast x (by simpa using hx))
  · intro c hcmem
    rw [head_of_prefix_eq rfl hne] at hcmem
    exact hhead c hcmem
  · intro c hcmem
    unfold candidateSuffix at hcmem
    rw [show l ++ (' ' :: '(' :: (natDigits k ++ [')'])) =
      (l ++ (' ' :: '(' :: natDigits k)) ++ [')'] by simp] at hcmem
    rw [List.getLast?_concat] at hcmem
    rw [(Option.some.injEq _ _).mp hcmem.symm]
    decide

/-- Unfolded form of `build_candidate_layer_type_name` for attempts from 2
on. -/
theorem build_candidate_ge_two (base : String) (k : Nat) (hk : 2 ≤ k) :
    build_candidate_layer_type_name base k =
      String.mk
        ((if pyRStripList (base.data.take
              (max 1 (MAX_LAYER_TYPE_NAME_LENGTH - (candidateSuffix k).length))) = []
          then base.data.take
              (max 1 (MAX_LAYER_TYPE_NAME_LENGTH - (candidateSuffix k).length))
          else pyRStripList (base.data.take
              (max 1 (MAX_LAYER_TYPE_NAME_LENGTH - (candidateSuffix k).length)))) ++
          candidateSuffix k) := by
  unfold build_candidate_layer_type_name
  dsimp only
  rw [if_neg (by omega)]

/-- The truncated base used in a candidate is a prefix of the base, and its
length is bounded by the truncation limit. -/
theorem candidate_trimmed_props (base : String) (m : Nat) :
    (∃ r, base.data =
      (if pyRStripList (base.data.take m) = [] then base.data.take m
       else pyRStripList (base.data.take m)) ++ r) ∧
    (if pyRStripList (base.data.take m) = [] then base.data.take m
     else pyRStripList (base.data.take m)).length ≤ m := by
  set t := base.data.take m with ht
  have htake : base.data = t ++ base.data.drop m := by
    rw [ht]; exact (List.take_append_drop m base.data).symm
  have htlen : t.length ≤ m := by
    rw [ht, List.length_take]; omega
  have hr : t = pyRStripList t ++ (t.reverse.takeWhile pyIsSpace).reverse :=
    pyRStripList_append t
  constructor
  · split
    · exact ⟨base.data.drop m, htake⟩
    · refine ⟨(t.reverse.takeWhile pyIsSpace).reverse ++ base.data.drop m, ?_⟩
      have hsplit : base.data =
          (pyRStripList t ++ (t.reverse.takeWhile pyIsSpace).reverse) ++
            base.data.drop m := by
        conv_lhs => rw [htake]
        conv_lhs => rw [hr]
      exact hsplit.trans (List.append_assoc _ _ _)
  · split
    · exact htlen
    · have h1 : (pyRStripList t).length ≤ t.length := by
        conv_rhs => rw [hr]
        rw [List.length_append]
        omega
      omega

/-- Claim C7: candidate generation yields the sanitized base name at
attempt 1; attempts 2..50 append the `" (attempt)"` suffix to a prefix of
the base and stay within the 200-character maximum; when the base name is
already taken, the attempt-2 candidate is distinct from it; and every
finalized candidate (after the final sanitize at 200 characters) has
length at most 200 and no illegal character. -/
theorem C7_candidate_generation (desired : String) :
    build_candidate_layer_type_name (prepare_layer_type_base_name desired) 1
      = prepare_layer_type_base_name desired ∧
    (∀ k, 2 ≤ k → k ≤ MAX_LAYER_TYPE_NAME_ATTEMPTS →
      (∃ t r, (build_candidate_layer_type_name
            (prepare_layer_type_base_name desired) k).data = t ++ candidateSuffix k ∧
          (prepare_layer_type_base_name desired).data = t ++ r) ∧
      (build_candidate_layer_type_name
          (prepare_layer_type_base_name desired) k).data.length
        ≤ MAX_LAYER_TYPE_NAME_LENGTH) ∧
    (∃ k, 1 ≤ k ∧ k ≤ MAX_LAYER_TYPE_NAME_ATTEMPTS ∧
      make_valid_wall_type_name
        (build_candidate_layer_type_name (prepare_layer_type_base_name desired) k)
        MAX_LAYER_TYPE_NAME_LENGTH ≠ prepare_layer_type_base_name desired) ∧
    (∀ k, 1 ≤ k → k ≤ MAX_LAYER_TYPE_NAME_ATTEMPTS →
      (make_valid_wall_type_name
        (build_candidate_layer_type_name (prepare_layer_type_base_name desired) k)
        MAX_LAYER_TYPE_NAME_LENGTH).data.length ≤ MAX_LAYER_TYPE_NAME_LENGTH ∧
      ∀ c ∈ (make_valid_wall_type_name
        (build_candidate_layer_type_name (prepare_layer_type_base_name desired) k)
        MAX_LAYER_TYPE_NAME_LENGTH).data, isInvalidNameChar c = false) := by
  obtain ⟨hBc, hBne, hBlen⟩ := prepare_base_props desired
  refine ⟨?_, ?_, ?_, ?_⟩
  · unfold build_candidate_layer_type_name
    rw [if_pos (by omega)]
  · intro k hk2 hk50
    have hATT : MAX_LAYER_TYPE_NAME_ATTEMPTS = 50 := rfl
    rw [hATT] at hk50
    have hsl : (candidateSuffix k).length ≤ 5 :=
      candidateSuffix_length_le (by omega)
    rw [build_candidate_ge_two _ k hk2]
    obtain ⟨⟨r, hpre⟩, hlen⟩ := candidate_trimmed_props
      (prepare_layer_type_base_name desired)
      (max 1 (MAX_LAYER_TYPE_NAME_LENGTH - (candidateSuffix k).length))
    constructor
    · exact ⟨_, r, rfl, hpre⟩
    · show (_ ++ candidateSuffix k).length ≤ MAX_LAYER_TYPE_NAME_LENGTH
      rw [List.length_append]
      have hMAX : MAX_LAYER_TYPE_NAME_LENGTH = 200 := rfl
      rw [hMAX] at hlen ⊢
      omega
  · refine ⟨2, by omega, by decide, ?_⟩
    have hsuffix2 : candidateSuffix 2 = [' ', '(', '2', ')'] := by decide
    have hcand2 : build_candidate_layer_type_name
        (prepare_layer_type_base_name desired) 2 =
        String.mk ((prepare_layer_type_base_name desired).data ++ candidateSuffix 2) := by
      rw [build_candidate_ge_two _ 2 (by omega)]
      have hm : max 1 (MAX_LAYER_TYPE_NAME_LENGTH - (candidateSuffix 2).length) = 196 := by
        rw [hsuffix2]; decide
      rw [hm]
      have htake : (prepare_layer_type_base_name desired).data.take 196 =
          (prepare_layer_type_base_name desired).data :=
        List.take_of_length_le (by
          have h60 : SAFE_LAYER_TYPE_BASE_NAME_LENGTH = 60 := rfl
          omega)
      rw [htake]
      rw [pyRStripList_eq_self_of_edge hBc.2.2.2.2]
      rw [if_neg hBne]
    rw [hcand2]
    have hfix : make_valid_wall_type_name
        (String.mk ((prepare_layer_type_base_name desired).data ++ candidateSuffix 2))
        MAX_LAYER_TYPE_NAME_LENGTH =
        String.mk ((prepare_layer_type_base_name desired).data ++ candidateSuffix 2) := by
      apply make_valid_name_fixed
      · exact clean_append_candidateSuffix hBc hBne 2
      · simp [hBne]
      · right
        show ((prepare_layer_type_base_name desired).data ++ candidateSuffix 2).length
          ≤ MAX_LAYER_TYPE_NAME_LENGTH
        rw [List.length_append, hsuffix2]
        have h60 : SAFE_LAYER_TYPE_BASE_NAME_LENGTH = 60 := rfl
        have h200 : MAX_LAYER_TYPE_NAME_LENGTH = 200 := rfl
        simp only [List.length_cons, List.length_nil]
        omega
    rw [hfix]
    intro hcontra
    have hdata : (prepare_layer_type_base_name desired).data =
        (prepare_layer_type_base_name desired).data ++ candidateSuffix 2 := by
      conv_lhs => rw [← hcontra]
    have hlen2 := congrArg List.length hdata
    rw [List.length_append, hsuffix2] at hlen2
    simp only [List.length_cons, List.length_nil] at hlen2
    omega
  · intro k _ _
    constructor
    · exact make_valid_name_length
        (build_candidate_layer_type_name (prepare_layer_type_base_name desired) k)
        MAX_LAYER_TYPE_NAME_LENGTH "Тип слоя" (by decide) (by decide)
    · exact (make_valid_name_clean
        (build_candidate_layer_type_name (prepare_layer_type_base_name desired) k)
        MAX_LAYER_TYPE_NAME_LENGTH "Тип слоя" fallback_clean).1

/-- Witness for C7 at the concrete base name derived from `"Стена"`:
attempt 1 returns the base unchanged and the finalized attempt-2 candidate
obeys the length bound. -/
theorem C7_witness :
    build_candidate_layer_type_name (prepare_layer_type_base_name "Стена") 1
      = prepare_layer_type_base_name "Стена" ∧
    (make_valid_wall_type_name
      (build_candidate_layer_type_name (prepare_layer_type_base_name "Стена") 2)
      MAX_LAYER_TYPE_NAME_LENGTH).data.length ≤ MAX_LAYER_TYPE_NAME_LENGTH :=
  ⟨(C7_candidate_generation "Стена").1,
   ((C7_candidate_generation "Стена").2.2.2 2 (by decide) (by decide)).1⟩

/-! ### Layers and offset geometry (script.py lines 223-244, 821-872) -/

/-- The Revit layer-function enumeration (`MaterialFunctionAssignment`). -/
inductive MaterialFunctionAssignment where
  | Structure
  | Substrate
  | Insulation
  | Finish1
  | Finish2
  | Membrane
  | StructuralDeck
  deriving DecidableEq

/-- A compound-structure layer: positive width (feet, embedded exactly as a
rational), function tag and material reference (`none` embeds
`ElementId.InvalidElementId`). -/
structure Layer where
  width : ℚ
  function : MaterialFunctionAssignment
  materialId : Option Nat
  deriving DecidableEq

instance : Inhabited Layer := ⟨⟨0, .Structure, none⟩⟩

/-- The data of `WallType.GetCompoundStructure()` the command reads: the
ordered layers and the first/last core-layer indices (negative when the
host reports none). -/
structure CompoundStructureModel where
  layers : List Layer
  firstCoreIndex : Int
  lastCoreIndex : Int

/-- `WallLocationReference` (script.py lines 223-229). -/
inductive WallLocationReference where
  | WALL_CENTERLINE
  | CORE_CENTERLINE
  | FINISH_FACE_EXTERIOR
  | FINISH_FACE_INTERIOR
  | CORE_FACE_EXTERIOR
  | CORE_FACE_INTERIOR
  deriving DecidableEq

/-- `resolve_wall_location_line` (script.py lines 867-872): unknown
parameter values degrade to the wall centerline. -/
def resolve_wall_location_line (v : Int) : WallLocationReference :=
  if v = 0 then .WALL_CENTERLINE
  else if v = 1 then .CORE_CENTERLINE
  else if v = 2 then .FINISH_FACE_EXTERIOR
  else if v = 3 then .FINISH_FACE_INTERIOR
  else if v = 4 then .CORE_FACE_EXTERIOR
  else if v = 5 then .CORE_FACE_INTERIOR
  else .WALL_CENTERLINE

/-- `calculate_total_thickness` (script.py lines 821-823). -/
def calculate_total_thickness (layers : List Layer) : ℚ :=
  (layers.map (fun l => l.width)).sum

/-- `calculate_layer_center_offset` (script.py lines 825-829).  Python
indexing `layers[layer_index]` presumes the index in range (the call site
enumerates the list); out of range we read the default layer. -/
def calculate_layer_center_offset (layers : List Layer) (layer_index : Nat)
    (exterior_face_offset : ℚ) : ℚ :=
  let cumulative := ((layers.take layer_index).map (fun l => l.width)).sum
  let center_from_exterior :=
    cumulative + (layers.getD layer_index default).width / 2
  exterior_face_offset - center_from_exterior

/-- `try_get_core_thicknesses` (script.py lines 1368-1388): sums of the
widths of the layers strictly before the first core index (exterior
shell), inside the core, and strictly after the last core index (interior
shell).  Fails when the core indices are missing or inverted. -/
def try_get_core_thicknesses (cstruct : CompoundStructureModel)
    (layers : List Layer) : Bool × ℚ × ℚ × ℚ :=
  let first := cstruct.firstCoreIndex
  let last := cstruct.lastCoreIndex
  if first < 0 ∨ last < 0 ∨ last < first then (false, 0, 0, 0)
  else
    let acc := layers.enum.foldl
      (fun (a : ℚ × ℚ × ℚ) (p : Nat × Layer) =>
        if (p.1 : Int) < first then (a.1 + p.2.width, a.2.1, a.2.2)
        else if last < (p.1 : Int) then (a.1, a.2.1, a.2.2 + p.2.width)
        else (a.1, a.2.1 + p.2.width, a.2.2))
      (0, 0, 0)
    (true, acc.1, acc.2.1, acc.2.2)

/-- `calculate_core_face_exterior_offset` (script.py lines 846-851). -/
def calculate_core_face_exterior_offset (cstruct : CompoundStructureModel)
    (layers : List Layer) (exterior_face_offset : ℚ) : ℚ :=
  match try_get_core_thicknesses cstruct layers with
  | (false, _, _, _) => 0
  | (true, exterior_thickness, _, _) => exterior_face_offset - exterior_thickness

/-- `calculate_core_face_interior_offset` (script.py lines 853-858). -/
def calculate_core_face_interior_offset (cstruct : CompoundStructureModel)
    (layers : List Layer) (exterior_face_offset : ℚ) : ℚ :=
  match try_get_core_thicknesses cstruct layers with
  | (false, _, _, _) => 0
  | (true, _, _, interior_thickness) => -exterior_face_offset + interior_thickness

/-- `calculate_core_centerline_offset` (script.py lines 860-865). -/
def calculate_core_centerline_offset (cstruct : CompoundStructureModel)
    (layers : List Layer) (exterior_face_offset : ℚ) : ℚ :=
  match try_get_core_thicknesses cstruct layers with
  | (false, _, _, _) => 0
  | (true, exterior_thickness, core_thickness, _) =>
    exterior_face_offset - (exterior_thickness + core_thickness / 2)

/-- `calculate_reference_offset` (script.py lines 831-844). -/
def calculate_reference_offset (cstruct : CompoundStructureModel)
    (layers : List Layer) (wall_location_line : WallLocationReference)
    (exterior_face_offset : ℚ) : ℚ :=
  match wall_location_line with
  | .WALL_CENTERLINE => 0
  | .FINISH_FACE_EXTERIOR => exterior_face_offset
  | .FINISH_FACE_INTERIOR => -exterior_face_offset
  | .CORE_FACE_EXTERIOR =>
    calculate_core_face_exterior_offset cstruct layers exterior_face_offset
  | .CORE_FACE_INTERIOR =>
    calculate_core_face_interior_offset cstruct layers exterior_face_offset
  | .CORE_CENTERLINE =>
    calculate_core_centerline_offset cstruct layers exterior_face_offset

/-- Claim C2: for layers with positive widths and total thickness `T`,
`calculate_layer_center_offset` at the exterior-face offset `T/2` returns
`T/2 − (Σ_{j<i} w_j + w_i/2)`; the wall-centerline reference offset is `0`;
and hence the exterior-most layer's final offset is `T/2 − w_0/2`. -/
theorem C2_layer_center_offset (layers : List Layer) (i : Nat)
    (hi : i < layers.length) (hpos : ∀ l ∈ layers, 0 < l.width) :
    calculate_layer_center_offset layers i (calculate_total_thickness layers / 2) =
      calculate_total_thickness layers / 2 -
        (((layers.take i).map (fun l => l.width)).sum +
          (layers.get ⟨i, hi⟩).width / 2) ∧
    (∀ cstruct : CompoundStructureModel,
      calculate_reference_offset cstruct layers .WALL_CENTERLINE
        (calculate_total_thickness layers / 2) = 0) ∧
    (∀ cstruct : CompoundStructureModel, ∀ h0 : 0 < layers.length,
      calculate_reference_offset cstruct layers .WALL_CENTERLINE
          (calculate_total_thickness layers / 2) +
        calculate_layer_center_offset layers 0
          (calculate_total_thickness layers / 2) =
      calculate_total_thickness layers / 2 - (layers.get ⟨0, h0⟩).width / 2) := by
  have hgetD : ∀ (j : Nat) (hj : j < layers.length),
      layers.getD j default = layers.get ⟨j, hj⟩ := by
    intro j hj
    rw [List.getD_eq_getElem?_getD, List.getElem?_eq_getElem hj]
    rfl
  refine ⟨?_, fun _ => rfl, ?_⟩
  · unfold calculate_layer_center_offset
    rw [hgetD i hi]
  · intro cstruct h0
    unfold calculate_reference_offset calculate_layer_center_offset
    rw [hgetD 0 h0]
    simp [List.take_zero]

/-- Witness for C2 at a concrete three-layer wall (widths 2, 6, 2): the
middle layer's center offset from the centerline is `5 − (2 + 3) = 0` and
the exterior-most layer's final offset is `5 − 1 = 4`. -/
theorem C2_witness :
    calculate_layer_center_offset
      [⟨2, .Finish1, none⟩, ⟨6, .Structure, some 7⟩, ⟨2, .Finish2, none⟩] 1
      (calculate_total_thickness
        [⟨2, .Finish1, none⟩, ⟨6, .Structure, some 7⟩, ⟨2, .Finish2, none⟩] / 2) = 0 ∧
    calculate_reference_offset ⟨[], -1, -1⟩
        [⟨2, .Finish1, none⟩, ⟨6, .Structure, some 7⟩, ⟨2, .Finish2, none⟩]
        .WALL_CENTERLINE 5 +
      calculate_layer_center_offset
        [⟨2, .Finish1, none⟩, ⟨6, .Structure, some 7⟩, ⟨2, .Finish2, none⟩] 0 5 = 4 := by
  constructor
  · have h := (C2_layer_center_offset
      [⟨2, .Finish1, none⟩, ⟨6, .Structure, some 7⟩, ⟨2, .Finish2, none⟩] 1
      (by decide) (by decide)).1
    rw [h]
    norm_num [calculate_total_thickness]
  · have h := (C2_layer_center_offset
      [⟨2, .Finish1, none⟩, ⟨6, .Structure, some 7⟩, ⟨2, .Finish2, none⟩] 0
      (by decide) (by decide)).2.2 ⟨[], -1, -1⟩ (by decide)
    have hT : calculate_total_thickness
        [⟨2, .Finish1, none⟩, ⟨6, .Structure, some 7⟩, ⟨2, .Finish2, none⟩] = 10 := by
      norm_num [calculate_total_thickness]
    rw [hT] at h
    norm_num at h ⊢
    convert h using 2 <;> norm_num

/-- Claim C8: for a fixed layer list and compound structure, switching the
wall-location-line mode shifts every layer's final offset
(`reference_offset + layer_center_offset i`) by one additive constant, so
the difference between the final offsets of adjacent layers is invariant
under mode changes. -/
theorem C8_reference_mode_invariance (cstruct : CompoundStructureModel)
    (layers : List Layer) :
    (∀ m1 m2 : WallLocationReference, ∃ c : ℚ, ∀ i : Nat,
      calculate_reference_offset cstruct layers m1
          (calculate_total_thickness layers / 2) +
        calculate_layer_center_offset layers i
          (calculate_total_thickness layers / 2) =
      (calculate_reference_offset cstruct layers m2
          (calculate_total_thickness layers / 2) +
        calculate_layer_center_offset layers i
          (calculate_total_thickness layers / 2)) + c) ∧
    (∀ m1 m2 : WallLocationReference, ∀ i j : Nat,
      (calculate_reference_offset cstruct layers m1
          (calculate_total_thickness layers / 2) +
        calculate_layer_center_offset layers j
          (calculate_total_thickness layers / 2)) -
      (calculate_reference_offset cstruct layers m1
          (calculate_total_thickness layers / 2) +
        calculate_layer_center_offset layers i
          (calculate_total_thickness layers / 2)) =
      (calculate_reference_offset cstruct layers m2
          (calculate_total_thickness layers / 2) +
        calculate_layer_center_offset layers j
          (calculate_total_thickness layers / 2)) -
      (calculate_reference_offset cstruct layers m2
          (calculate_total_thickness layers / 2) +
        calculate_layer_center_offset layers i
          (calculate_total_thickness layers / 2))) := by
  constructor
  · intro m1 m2
    refine ⟨calculate_reference_offset cstruct layers m1
        (calculate_total_thickness layers / 2) -
      calculate_reference_offset cstruct layers m2
        (calculate_total_thickness layers / 2), ?_⟩
    intro i
    ring
  · intro m1 m2 i j
    ring

/-! ### Hosted-instance relocation (script.py lines 232-243, 980-1012,
1414-1432)

The geometric projection of an instance's location point onto the wall's
base curve (`try_get_instance_offset` / `project_offset`) is a host
geometry primitive; its result — the signed offset along the orientation
vector, or nothing when no location is available — is carried as the
`locOffset` field.  Host-parameter storage is likewise carried as the
observable outcomes `hostWritable` (HOST_ID_PARAM exists and is not
read-only) and `hostSetOk` (`Set` returns True without raising). -/

/-- `LayerWallInfo` (script.py lines 232-243): a created layer wall with
its source layer, layer index and signed center offset. -/
structure LayerWallInfo where
  wallId : Nat
  layer : Layer
  index : Nat
  center_offset : ℚ
  deriving DecidableEq

/-- `self._half_width` of `LayerWallInfo`. -/
def half_width (info : LayerWallInfo) : ℚ := info.layer.width / 2

/-- `LayerWallInfo.contains_offset` (script.py lines 240-243). -/
def contains_offset (info : LayerWallInfo) (offset tolerance : ℚ) : Bool :=
  decide (info.center_offset - half_width info - tolerance ≤ offset ∧
    offset ≤ info.center_offset + half_width info + tolerance)

/-- A detached family instance as the relocation code observes it. -/
structure FamInstance where
  id : Nat
  isValidObject : Bool
  locOffset : Option ℚ
  hostWritable : Bool
  hostSetOk : Bool
  deriving DecidableEq

/-- `try_rehost_family_instance` (script.py lines 1423-1432): fails on a
missing host, a missing or read-only host parameter, a raised exception or
a false `Set` result. -/
def try_rehost_family_instance (inst : FamInstance) (new_host : Option Nat) :
    Bool :=
  match new_host with
  | none => false
  | some _ => inst.hostWritable && inst.hostSetOk

/-- Python `max(layer_infos, key=lambda info: info.layer.Width)`: iterates
left to right and keeps the current maximum, replacing it only on a
strictly greater key — so the first layer attaining the maximal width
wins. -/
def pyMaxByWidth : LayerWallInfo → List LayerWallInfo → LayerWallInfo
  | best, [] => best
  | best, x :: xs =>
    pyMaxByWidth (if best.layer.width < x.layer.width then x else best) xs

/-- `choose_layer_by_function` (script.py lines 1414-1420): the first layer
whose function is Structure, else the widest layer. -/
def choose_layer_by_function : List LayerWallInfo → Option LayerWallInfo
  | [] => none
  | first :: rest =>
    match (first :: rest).find?
        (fun info => decide (info.layer.function = .Structure)) with
    | some info => some info
    | none => some (pyMaxByWidth first rest)

/-- The head of `candidates.sort(key=lambda info: abs(info.center_offset -
offset))[0]` (script.py lines 1009-1010): Python's sort is stable, so the
head of the sorted list is the first element attaining the minimal key,
which is what this function computes. -/
def pickClosest (offset : ℚ) : List LayerWallInfo → Option LayerWallInfo
  | [] => none
  | x :: xs =>
    match pickClosest offset xs with
    | none => some x
    | some y =>
      some (if |y.center_offset - offset| < |x.center_offset - offset|
        then y else x)

/-- `select_layer_for_instance` (script.py lines 1003-1012).  The signed
instance offset computed by `try_get_instance_offset` from the base curve
and orientation is the instance's `locOffset` field. -/
def select_layer_for_instance (inst : FamInstance)
    (layer_infos : List LayerWallInfo) : Option LayerWallInfo :=
  let tolerance : ℚ := 1 / 1000000
  match inst.locOffset with
  | some offset =>
    match layer_infos.filter (fun info => contains_offset info offset tolerance) with
    | [] => choose_layer_by_function layer_infos
    | c :: cs => pickClosest offset (c :: cs)
  | none => choose_layer_by_function layer_infos

/-- The per-instance loop of `rehost_family_instances` (script.py lines
987-999), with the two result lists as explicit accumulators. -/
def rehostLoop (layer_infos : List LayerWallInfo) :
    List (Option FamInstance) → List Nat × List Nat → List Nat × List Nat
  | [], acc => acc
  | o :: rest, acc =>
    match o with
    | none => rehostLoop layer_infos rest acc
    | some inst =>
      if inst.isValidObject = false then rehostLoop layer_infos rest acc
      else
        match select_layer_for_instance inst layer_infos with
        | none => rehostLoop layer_infos rest (acc.1, acc.2 ++ [inst.id])
        | some target =>
          if try_rehost_family_instance inst (some target.wallId)
          then rehostLoop layer_infos rest (acc.1 ++ [inst.id], acc.2)
          else rehostLoop layer_infos rest (acc.1, acc.2 ++ [inst.id])

/-- `rehost_family_instances` (script.py lines 980-1001): empty layer or
instance lists short-circuit to two empty lists. -/
def rehost_family_instances (layer_infos : List LayerWallInfo)
    (detached_instances : List (Option FamInstance)) : List Nat × List Nat :=
  if layer_infos = [] ∨ detached_instances = [] then ([], [])
  else rehostLoop layer_infos detached_instances ([], [])

/-- `pickClosest` returns the first element of the list attaining the
minimal distance to the offset. -/
theorem pickClosest_spec (offset : ℚ) :
    ∀ l : List LayerWallInfo, l ≠ [] →
      ∃ sel pre post, pickClosest offset l = some sel ∧
        l = pre ++ sel :: post ∧
        (∀ p ∈ pre, |sel.center_offset - offset| < |p.center_offset - offset|) ∧
        (∀ q ∈ l, |sel.center_offset - offset| ≤ |q.center_offset - offset|) := by
  intro l
  induction l with
  | nil => intro h; exact absurd rfl h
  | cons x xs ih =>
    intro _
    by_cases hxs : xs = []
    · subst hxs
      refine ⟨x, [], [], rfl, rfl, by simp, ?_⟩
      intro q hq
      rw [List.mem_singleton.mp hq]
    · obtain ⟨sel', pre', post', hpick, hsplit, hpre, hmin⟩ := ih hxs
      by_cases hlt : |sel'.center_offset - offset| < |x.center_offset - offset|
      · refine ⟨sel', x :: pre', post', ?_, by simp [hsplit], ?_, ?_⟩
        · simp only [pickClosest, hpick]
          rw [if_pos hlt]
        · intro p hp
          rcases List.mem_cons.mp hp with h | h
          · rw [h]; exact hlt
          · exact hpre p h
        · intro q hq
          rcases List.mem_cons.mp hq with h | h
          · rw [h]; exact le_of_lt hlt
          · exact hmin q h
      · refine ⟨x, [], xs, ?_, rfl, by simp, ?_⟩
        · simp only [pickClosest, hpick]
          rw [if_neg hlt]
        · intro q hq
          rcases List.mem_cons.mp hq with h | h
          · rw [h]
          · exact le_trans (not_lt.mp hlt) (hmin q h)

/-- `List.find?` returns the first matching element. -/
theorem find?_first {p : LayerWallInfo → Bool} :
    ∀ {l : List LayerWallInfo} {s : LayerWallInfo}, l.find? p = some s →
      p s = true ∧ ∃ pre post, l = pre ++ s :: post ∧ ∀ a ∈ pre, p a = false := by
  intro l
  induction l with
  | nil => intro s h; simp [List.find?] at h
  | cons x xs ih =>
    intro s h
    rw [List.find?_cons] at h
    cases hpx : p x with
    | true =>
      rw [hpx] at h
      simp only [Option.some.injEq] at h
      subst h
      exact ⟨hpx, [], xs, rfl, by simp⟩
    | false =>
      rw [hpx] at h
      obtain ⟨hps, pre, post, hsplit, hpre⟩ := ih h
      refine ⟨hps, x :: pre, post, by rw [hsplit]; rfl, ?_⟩
      intro a ha
      rcases List.mem_cons.mp ha with h2 | h2
      · rw [h2]; exact hpx
      · exact hpre a h2

/-- The Python `max` fold keeps an element of the list (or the seed) of
maximal width. -/
theorem pyMaxByWidth_spec :
    ∀ (rest : List LayerWallInfo) (best : LayerWallInfo),
      (pyMaxByWidth best rest = best ∨ pyMaxByWidth best rest ∈ rest) ∧
      best.layer.width ≤ (pyMaxByWidth best rest).layer.width ∧
      ∀ i ∈ rest, i.layer.width ≤ (pyMaxByWidth best rest).layer.width := by
  intro rest
  induction rest with
  | nil => intro best; exact ⟨Or.inl rfl, le_refl _, by simp⟩
  | cons x xs ih =>
    intro best
    unfold pyMaxByWidth
    by_cases hlt : best.layer.width < x.layer.width
    · rw [if_pos hlt]
      obtain ⟨hmem, hge, hall⟩ := ih x
      refine ⟨?_, le_trans (le_of_lt hlt) hge, ?_⟩
      · rcases hmem with h | h
        · exact Or.inr (by rw [h]; exact List.mem_cons_self x xs)
        · exact Or.inr (List.mem_cons_of_mem x h)
      · intro i hi
        rcases List.mem_cons.mp hi with h | h
        · rw [h]; exact hge
        · exact hall i h
    · rw [if_neg hlt]
      obtain ⟨hmem, hge, hall⟩ := ih best
      refine ⟨?_, hge, ?_⟩
      · rcases hmem with h | h
        · exact Or.inl h
        · exact Or.inr (List.mem_cons_of_mem x h)
      · intro i hi
        rcases List.mem_cons.mp hi with h | h
        · rw [h]; exact le_trans (not_lt.mp hlt) hge
        · exact hall i h

/-- Claim C3: when the instance's signed offset is available and some layer
band contains it (within tolerance 1e-6), `select_layer_for_instance`
returns a matching layer whose center offset is numerically closest to the
instance offset, ties broken by first in layer order; otherwise it falls
back to `choose_layer_by_function`, which picks the first layer whose
function is Structure, or, when none exists, a widest layer. -/
theorem C3_select_layer_for_instance (inst : FamInstance)
    (layer_infos : List LayerWallInfo) :
    (∀ o : ℚ, inst.locOffset = some o →
      (∃ info ∈ layer_infos, contains_offset info o (1 / 1000000) = true) →
      ∃ sel, select_layer_for_instance inst layer_infos = some sel ∧
        sel ∈ layer_infos ∧ contains_offset sel o (1 / 1000000) = true ∧
        (∀ info ∈ layer_infos, contains_offset info o (1 / 1000000) = true →
          |sel.center_offset - o| ≤ |info.center_offset - o|) ∧
        ∃ pre post,
          layer_infos.filter (fun info => contains_offset info o (1 / 1000000))
            = pre ++ sel :: post ∧
          ∀ p ∈ pre, |sel.center_offset - o| < |p.center_offset - o|) ∧
    ((inst.locOffset = none ∨ ∃ o, inst.locOffset = some o ∧
        ∀ info ∈ layer_infos, contains_offset info o (1 / 1000000) = false) →
      select_layer_for_instance inst layer_infos
        = choose_layer_by_function layer_infos) ∧
    ((∃ i ∈ layer_infos, i.layer.function = .Structure) →
      ∃ s pre post, choose_layer_by_function layer_infos = some s ∧
        s.layer.function = .Structure ∧ layer_infos = pre ++ s :: post ∧
        ∀ p ∈ pre, p.layer.function ≠ .Structure) ∧
    (layer_infos ≠ [] → (∀ i ∈ layer_infos, i.layer.function ≠ .Structure) →
      ∃ w, choose_layer_by_function layer_infos = some w ∧ w ∈ layer_infos ∧
        ∀ i ∈ layer_infos, i.layer.width ≤ w.layer.width) := by
  refine ⟨?_, ?_, ?_, ?_⟩
  · intro o ho hex
    obtain ⟨info0, hmem0, hcont0⟩ := hex
    have hfil_ne : layer_infos.filter
        (fun info => contains_offset info o (1 / 1000000)) ≠ [] := by
      intro hnil
      have hmem : info0 ∈ layer_infos.filter
          (fun info => contains_offset info o (1 / 1000000)) :=
        List.mem_filter.mpr ⟨hmem0, hcont0⟩
      rw [hnil] at hmem
      simp at hmem
    obtain ⟨sel, pre, post, hpick, hsplit, hpre, hmin⟩ :=
      pickClosest_spec o _ hfil_ne
    refine ⟨sel, ?_, ?_, ?_, ?_, pre, post, hsplit, hpre⟩
    · unfold select_layer_for_instance
      dsimp only
      simp only [ho]
      cases hfil : layer_infos.filter
          (fun info => contains_offset info o (1 / 1000000)) with
      | nil => exact absurd hfil hfil_ne
      | cons c cs =>
        rw [hfil] at hpick
        exact hpick
    · have hselmem : sel ∈ layer_infos.filter
          (fun info => contains_offset info o (1 / 1000000)) := by
        rw [hsplit]
        exact List.mem_append_right pre (List.mem_cons_self sel post)
      exact (List.mem_filter.mp hselmem).1
    · have hselmem : sel ∈ layer_infos.filter
          (fun info => contains_offset info o (1 / 1000000)) := by
        rw [hsplit]
        exact List.mem_append_right pre (List.mem_cons_self sel post)
      exact (List.mem_filter.mp hselmem).2
    · intro info hinfo hcont
      exact hmin info (List.mem_filter.mpr ⟨hinfo, hcont⟩)
  · intro hcase
    rcases hcase with hnone | ⟨o, ho, hall⟩
    · unfold select_layer_for_instance
      dsimp only
      simp only [hnone]
    · unfold select_layer_for_instance
      dsimp only
      simp only [ho]
      have hfil : layer_infos.filter
          (fun info => contains_offset info o (1 / 1000000)) = [] :=
        List.filter_eq_nil_iff.mpr (by
          intro a ha
          show ¬contains_offset a o (1 / 1000000) = true
          rw [hall a ha]
          simp)
      rw [hfil]
  · intro ⟨i0, hi0, hfun0⟩
    cases hli : layer_infos with
    | nil => rw [hli] at hi0; simp at hi0
    | cons first rest =>
      have hsome : ((first :: rest).find?
          (fun info => decide (info.layer.function = .Structure))).isSome := by
        rw [List.find?_isSome]
        refine ⟨i0, ?_, by simp [hfun0]⟩
        rw [← hli]
        exact hi0
      obtain ⟨s, hs⟩ := Option.isSome_iff_exists.mp hsome
      obtain ⟨hps, pre, post, hsplit, hpre⟩ := find?_first hs
      refine ⟨s, pre, post, ?_, by simpa using hps, hsplit, ?_⟩
      · simp only [choose_layer_by_function, hs]
      · intro p hp
        have := hpre p hp
        simpa using this
  · intro hne hnostruct
    cases hli : layer_infos with
    | nil => exact absurd hli hne
    | cons first rest =>
      have hfind : ((first :: rest).find?
          (fun info => decide (info.layer.function = .Structure))) = none := by
        rw [List.find?_eq_none]
        intro x hx
        simp only [decide_eq_true_eq]
        exact hnostruct x (by rw [hli]; exact hx)
      obtain ⟨hmem, _, hall⟩ := pyMaxByWidth_spec rest first
      refine ⟨pyMaxByWidth first rest, ?_, ?_, ?_⟩
      · simp only [choose_layer_by_function, hfind]
      · rcases hmem with h | h
        · rw [h]; exact List.mem_cons_self first rest
        · exact List.mem_cons_of_mem first h
      · intro i hi
        rcases List.mem_cons.mp hi with h | h
        · rw [h]
          exact (pyMaxByWidth_spec rest first).2.1
        · exact hall i h

/-- Witness for C3, matching the spec's example bands
`[(-5,-3), (-3,3), (3,5)]`: an instance at offset 0 selects the middle
band, and an instance at offset 10 falls back to the Structure layer. -/
theorem C3_witness :
    (∃ sel, select_layer_for_instance ⟨1, true, some 0, true, true⟩
        [⟨11, ⟨2, .Finish1, none⟩, 0, -4⟩,
         ⟨12, ⟨6, .Structure, none⟩, 1, 0⟩,
         ⟨13, ⟨2, .Finish2, none⟩, 2, 4⟩] = some sel ∧
      sel.wallId = 12) ∧
    select_layer_for_instance ⟨1, true, some 10, true, true⟩
        [⟨11, ⟨2, .Finish1, none⟩, 0, -4⟩,
         ⟨12, ⟨6, .Structure, none⟩, 1, 0⟩,
         ⟨13, ⟨2, .Finish2, none⟩, 2, 4⟩] =
      choose_layer_by_function
        [⟨11, ⟨2, .Finish1, none⟩, 0, -4⟩,
         ⟨12, ⟨6, .Structure, none⟩, 1, 0⟩,
         ⟨13, ⟨2, .Finish2, none⟩, 2, 4⟩] := by
  constructor
  · have hc1 : contains_offset ⟨11, ⟨2, .Finish1, none⟩, 0, -4⟩ 0 (1 / 1000000)
        = false := by
      simp only [contains_offset, half_width, decide_eq_false_iff_not]
      norm_num
    have hc2 : contains_offset ⟨12, ⟨6, .Structure, none⟩, 1, 0⟩ 0 (1 / 1000000)
        = true := by
      simp only [contains_offset, half_width, decide_eq_true_eq]
      norm_num
    have hc3 : contains_offset ⟨13, ⟨2, .Finish2, none⟩, 2, 4⟩ 0 (1 / 1000000)
        = false := by
      simp only [contains_offset, half_width, decide_eq_false_iff_not]
      norm_num
    obtain ⟨sel, hsel, hmem, hcont, _, _⟩ :=
      (C3_select_layer_for_instance ⟨1, true, some 0, true, true⟩
        [⟨11, ⟨2, .Finish1, none⟩, 0, -4⟩,
         ⟨12, ⟨6, .Structure, none⟩, 1, 0⟩,
         ⟨13, ⟨2, .Finish2, none⟩, 2, 4⟩]).1 0 rfl
      ⟨⟨12, ⟨6, .Structure, none⟩, 1, 0⟩, by simp, hc2⟩
    refine ⟨sel, hsel, ?_⟩
    rcases List.mem_cons.mp hmem with h | h
    · rw [h] at hcont
      rw [hc1] at hcont
      exact absurd hcont (by simp)
    rcases List.mem_cons.mp h with h2 | h2
    · rw [h2]
    rcases List.mem_cons.mp h2 with h3 | h3
    · rw [h3] at hcont
      rw [hc3] at hcont
      exact absurd hcont (by simp)
    · simp at h3
  · refine (C3_select_layer_for_instance ⟨1, true, some 10, true, true⟩ _).2.1
      (Or.inr ⟨10, rfl, ?_⟩)
    intro info hinfo
    rcases List.mem_cons.mp hinfo with h | h
    · rw [h]
      simp only [contains_offset, half_width, decide_eq_false_iff_not]
      norm_num
    rcases List.mem_cons.mp h with h2 | h2
    · rw [h2]
      simp only [contains_offset, half_width, decide_eq_false_iff_not]
      norm_num
    rcases List.mem_cons.mp h2 with h3 | h3
    · rw [h3]
      simp only [contains_offset, half_width, decide_eq_false_iff_not]
      norm_num
    · simp at h3

/-- The success predicate of the rehost loop body: a layer was selected and
the host parameter accepted the new host. -/
def rehostSucceeds (layer_infos : List LayerWallInfo) (inst : FamInstance) :
    Bool :=
  match select_layer_for_instance inst layer_infos with
  | none => false
  | some target => try_rehost_family_instance inst (some target.wallId)

/-- The instances the loop actually processes: non-null and valid. -/
def validDetached (detached : List (Option FamInstance)) : List FamInstance :=
  detached.filterMap (fun o =>
    match o with
    | none => none
    | some i => if i.isValidObject then some i else none)

theorem rehostLoop_spec (layer_infos : List LayerWallInfo) :
    ∀ (l : List (Option FamInstance)) (acc : List Nat × List Nat),
      rehostLoop layer_infos l acc =
        (acc.1 ++ ((validDetached l).filter
            (rehostSucceeds layer_infos)).map (fun i => i.id),
         acc.2 ++ ((validDetached l).filter
            (fun i => !rehostSucceeds layer_infos i)).map (fun i => i.id)) := by
  intro l
  induction l with
  | nil =>
    intro acc
    simp [rehostLoop, validDetached]
  | cons o rest ih =>
    intro acc
    cases o with
    | none =>
      show rehostLoop layer_infos rest acc = _
      rw [ih acc]
      simp [validDetached]
    | some inst =>
      by_cases hv : inst.isValidObject
      · have hvd : validDetached (some inst :: rest) = inst :: validDetached rest := by
          simp [validDetached, hv]
        cases hsel : select_layer_for_instance inst layer_infos with
        | none =>
          have hsucc : rehostSucceeds layer_infos inst = false := by
            simp [rehostSucceeds, hsel]
          show rehostLoop layer_infos (some inst :: rest) acc = _
          rw [show rehostLoop layer_infos (some inst :: rest) acc =
              rehostLoop layer_infos rest (acc.1, acc.2 ++ [inst.id]) by
            simp only [rehostLoop, hv, hsel]
            simp]
          rw [ih]
          rw [hvd]
          simp [hsucc, List.append_assoc]
        | some target =>
          by_cases htr : try_rehost_family_instance inst (some target.wallId)
          · have hsucc : rehostSucceeds layer_infos inst = true := by
              simp [rehostSucceeds, hsel, htr]
            rw [show rehostLoop layer_infos (some inst :: rest) acc =
                rehostLoop layer_infos rest (acc.1 ++ [inst.id], acc.2) by
              simp only [rehostLoop, hv, hsel]
              simp [htr]]
            rw [ih]
            rw [hvd]
            simp [hsucc, List.append_assoc]
          · have hsucc : rehostSucceeds layer_infos inst = false := by
              simp only [rehostSucceeds, hsel]
              exact Bool.eq_false_iff.mpr htr
            rw [show rehostLoop layer_infos (some inst :: rest) acc =
                rehostLoop layer_infos rest (acc.1, acc.2 ++ [inst.id]) by
              simp only [rehostLoop, hv, hsel]
              simp [htr]]
            rw [ih]
            rw [hvd]
            simp [hsucc, List.append_assoc]
      · have hvd : validDetached (some inst :: rest) = validDetached rest := by
          simp [validDetached, hv]
        rw [show rehostLoop layer_infos (some inst :: rest) acc =
            rehostLoop layer_infos rest acc by
          simp only [rehostLoop]
          simp [hv]]
        rw [ih, hvd]

/-- Claim C10, counterexample to the claim as stated: with an empty
layer-wall list, `rehost_family_instances` short-circuits and returns two
empty lists, so a valid detached instance is placed in neither — not in
exactly one — of them. -/
theorem C10_counterexample :
    rehost_family_instances [] [some ⟨1, true, some 0, true, true⟩] = ([], []) ∧
    (⟨1, true, some 0, true, true⟩ : FamInstance).isValidObject = true :=
  ⟨rfl, rfl⟩

/-- Claim C10 (amended): when the created-layer list is non-empty,
`rehost_family_instances` partitions exactly the non-null valid detached
instances: the rehosted list is the identifiers of the valid instances
whose re-host succeeds, the unmatched list is the identifiers of the
remaining valid instances, every valid detached instance lands in exactly
one of the two lists (identifiers being distinct), and every identifier in
either list comes from a valid detached instance — so null or invalidated
instances appear in neither. -/
theorem C10_rehost_partition (layer_infos : List LayerWallInfo)
    (detached : List (Option FamInstance)) (hne : layer_infos ≠ [])
    (hnodup : ((validDetached detached).map (fun i => i.id)).Nodup) :
    (rehost_family_instances layer_infos detached).1 =
      ((validDetached detached).filter
        (rehostSucceeds layer_infos)).map (fun i => i.id) ∧
    (rehost_family_instances layer_infos detached).2 =
      ((validDetached detached).filter
        (fun i => !rehostSucceeds layer_infos i)).map (fun i => i.id) ∧
    (∀ inst, some inst ∈ detached → inst.isValidObject = true →
      (inst.id ∈ (rehost_family_instances layer_infos detached).1 ∧
       inst.id ∉ (rehost_family_instances layer_infos detached).2) ∨
      (inst.id ∈ (rehost_family_instances layer_infos detached).2 ∧
       inst.id ∉ (rehost_family_instances layer_infos detached).1)) ∧
    (∀ x, x ∈ (rehost_family_instances layer_infos detached).1 ∨
        x ∈ (rehost_family_instances layer_infos detached).2 →
      ∃ inst ∈ validDetached detached, inst.id = x) := by
  have hmain : rehost_family_instances layer_infos detached =
      (((validDetached detached).filter
          (rehostSucceeds layer_infos)).map (fun i => i.id),
       ((validDetached detached).filter
          (fun i => !rehostSucceeds layer_infos i)).map (fun i => i.id)) := by
    unfold rehost_family_instances
    by_cases hd : detached = []
    · rw [if_pos (Or.inr hd), hd]
      simp [validDetached]
    · rw [if_neg (by
        rintro (h | h)
        · exact hne h
        · exact hd h)]
      rw [rehostLoop_spec layer_infos detached ([], [])]
      simp
  have hinj := List.inj_on_of_nodup_map hnodup
  refine ⟨by rw [hmain], by rw [hmain], ?_, ?_⟩
  · intro inst hmem hv
    have hvd : inst ∈ validDetached detached := by
      unfold validDetached
      rw [List.mem_filterMap]
      exact ⟨some inst, hmem, by simp [hv]⟩
    rw [hmain]
    by_cases hs : rehostSucceeds layer_infos inst
    · left
      constructor
      · exact List.mem_map.mpr ⟨inst, List.mem_filter.mpr ⟨hvd, hs⟩, rfl⟩
      · intro hcontra
        obtain ⟨j, hjmem, hjid⟩ := List.mem_map.mp hcontra
        have hj := List.mem_filter.mp hjmem
        have : j = inst := hinj hj.1 hvd hjid
        rw [this, hs] at hj
        simp at hj
    · right
      constructor
      · exact List.mem_map.mpr ⟨inst,
          List.mem_filter.mpr ⟨hvd, by simp [Bool.eq_false_iff.mpr hs]⟩, rfl⟩
      · intro hcontra
        obtain ⟨j, hjmem, hjid⟩ := List.mem_map.mp hcontra
        have hj := List.mem_filter.mp hjmem
        have : j = inst := hinj hj.1 hvd hjid
        rw [this] at hj
        exact hs hj.2
  · intro x hx
    rw [hmain] at hx
    rcases hx with hx | hx
    · obtain ⟨j, hjmem, hjid⟩ := List.mem_map.mp hx
      exact ⟨j, (List.mem_filter.mp hjmem).1, hjid⟩
    · obtain ⟨j, hjmem, hjid⟩ := List.mem_map.mp hx
      exact ⟨j, (List.mem_filter.mp hjmem).1, hjid⟩

/-- Witness for C10 at a concrete run: one valid instance, one invalidated
instance and one null entry, against a single layer wall. -/
theorem C10_witness :
    ((1 : Nat) ∈ (rehost_family_instances [⟨12, ⟨6, .Structure, none⟩, 1, 0⟩]
        [some ⟨1, true, some 0, true, true⟩,
         some ⟨2, false, none, true, true⟩, none]).1 ∧
     (1 : Nat) ∉ (rehost_family_instances [⟨12, ⟨6, .Structure, none⟩, 1, 0⟩]
        [some ⟨1, true, some 0, true, true⟩,
         some ⟨2, false, none, true, true⟩, none]).2) ∨
    ((1 : Nat) ∈ (rehost_family_instances [⟨12, ⟨6, .Structure, none⟩, 1, 0⟩]
        [some ⟨1, true, some 0, true, true⟩,
         some ⟨2, false, none, true, true⟩, none]).2 ∧
     (1 : Nat) ∉ (rehost_family_instances [⟨12, ⟨6, .Structure, none⟩, 1, 0⟩]
        [some ⟨1, true, some 0, true, true⟩,
         some ⟨2, false, none, true, true⟩, none]).1) :=
  (C10_rehost_partition [⟨12, ⟨6, .Structure, none⟩, 1, 0⟩]
    [some ⟨1, true, some 0, true, true⟩, some ⟨2, false, none, true, true⟩, none]
    (by decide) (by decide)).2.2.1
    ⟨1, true, some 0, true, true⟩ (by decide) (by decide)

/-! ### Wall types, the document and the layer-type cache (script.py lines
295-300, 637-819, 1311-1337)

The host document is embedded with the state the layer-type logic
observes: the wall types (identity, name, compound-structure layers), the
materials, and the set of names the host's `Duplicate` primitive rejects
with a name-collision-class error beyond exact duplicates (the
specification's external interface for the type catalog allows
`duplicate(newName)` to fail with such errors).  Parameters that the code
writes but never reads back (the structural-material parameter) are not
modelled. -/

structure WallTypeRec where
  id : Nat
  name : String
  layers : List Layer
  deriving DecidableEq

structure MaterialRec where
  id : Nat
  name : String
  deriving DecidableEq

structure Doc where
  wallTypes : List WallTypeRec
  materials : List MaterialRec
  rejectedNames : List String
  nextId : Nat
  deriving DecidableEq

/-- `document.GetElement` restricted to wall types. -/
def docGetWallType (doc : Doc) (id : Nat) : Option WallTypeRec :=
  doc.wallTypes.find? (fun t => t.id == id)

/-- `document.GetElement` restricted to materials. -/
def docGetMaterial (doc : Doc) (id : Nat) : Option MaterialRec :=
  doc.materials.find? (fun m => m.id == id)

/-- The command's per-run mutable state: the document, the layer-type
cache (a Python dict, embedded as an insertion-ordered association list)
and the lazily built wall-type name map.  The Python name map stores the
`WallType` objects; the embedding stores their identifiers and
dereferences them through the document, which the command never removes
types from during a run. -/
structure CmdState where
  doc : Doc
  layer_type_cache : List (String × Nat)
  wall_type_name_map : Option (List (String × Nat))
  deriving DecidableEq

/-- Python dict lookup (keys are unique in a dict, so first match
suffices). -/
def alistGet : List (String × Nat) → String → Option Nat
  | [], _ => none
  | p :: rest, k => if p.1 == k then some p.2 else alistGet rest k

/-- Python dict assignment: overwrite the entry in place, or append a new
one. -/
def alistSet : List (String × Nat) → String → Nat → List (String × Nat)
  | [], k, v => [(k, v)]
  | p :: rest, k, v =>
    if p.1 == k then (k, v) :: rest else p :: alistSet rest k v

/-- Python `dict.pop(key, None)`. -/
def alistErase (l : List (String × Nat)) (k : String) : List (String × Nat) :=
  l.filter (fun p => !(p.1 == k))

/-- `normalize_wall_type_name` (script.py lines 817-819). -/
def normalize_wall_type_name (name : String) : String := pyLower (pyStrip name)

/-- The first build of the wall-type name map (script.py lines 795-803):
every named type in the document, keyed by normalized name, later entries
overwriting earlier ones. -/
def build_wall_type_name_map (doc : Doc) : List (String × Nat) :=
  doc.wallTypes.foldl
    (fun m t =>
      if t.name ≠ "" ∧ normalize_wall_type_name t.name ≠ ""
      then alistSet m (normalize_wall_type_name t.name) t.id
      else m)
    []

/-- `get_wall_type_name_map` (script.py lines 795-803). -/
def get_wall_type_name_map (s : CmdState) : List (String × Nat) × CmdState :=
  match s.wall_type_name_map with
  | some m => (m, s)
  | none =>
    let m := build_wall_type_name_map s.doc
    (m, { s with wall_type_name_map := some m })

/-- `register_wall_type` (script.py lines 805-810). -/
def register_wall_type (s : CmdState) (wt : WallTypeRec) : CmdState :=
  if wt.name = "" then s
  else
    let key := normalize_wall_type_name wt.name
    if key = "" then s
    else
      let p := get_wall_type_name_map s
      { p.2 with wall_type_name_map := some (alistSet p.1 key wt.id) }

/-- `find_wall_type_by_name` (script.py lines 812-815). -/
def find_wall_type_by_name (s : CmdState) (type_name : String) :
    Option WallTypeRec × CmdState :=
  if type_name = "" then (none, s)
  else
    let p := get_wall_type_name_map s
    match alistGet p.1 (normalize_wall_type_name type_name) with
    | none => (none, p.2)
    | some id => (docGetWallType p.2.doc id, p.2)

/-- Python `str(i)` for integers. -/
def intToStr (i : Int) : String :=
  if i < 0 then "-" ++ natToStr i.natAbs else natToStr i.toNat

/-- Banker's rounding of the fraction `a / b` (`b > 0`), as Python's
`round` and `"{:.0f}".format` round: to the nearest integer, halves to the
even one.  Expressed over the numerator and denominator so it reduces by
kernel computation. -/
def pyRoundDiv (a : Int) (b : Nat) : Int :=
  let q := Int.fdiv a b
  let r := Int.fmod a b
  if 2 * r < (b : Int) then q
  else if (b : Int) < 2 * r then q + 1
  else if q % 2 = 0 then q else q + 1

/-- Python `round(w, 8)` embedded by its value scaled by `10^8`: the key
component is only ever compared for equality, and two widths yield equal
components exactly when their rounded values coincide. -/
def roundScaled8 (w : ℚ) : Int := pyRoundDiv (w.num * 100000000) w.den

/-- `build_layer_type_key` (script.py lines 1311-1313): the composite
string key from base-type identity, material identity (−1 for none), layer
index and the width rounded to 8 decimals. -/
def build_layer_type_key (base_type_id : Nat) (layer : Layer) (index : Nat) :
    String :=
  natToStr base_type_id ++ "-" ++
    (match layer.materialId with
     | some m => natToStr m
     | none => "-1") ++ "-" ++
    natToStr index ++ "-" ++ intToStr (roundScaled8 layer.width)

/-- `" - ".join` and friends: Python `sep.join(parts)`. -/
def joinWith (sep : String) : List String → String
  | [] => ""
  | [s] => s
  | s :: rest => s ++ sep ++ joinWith sep rest

/-- `sanitize_name_component` (script.py lines 1600-1604): replace the
illegal set by `_` (no control-character handling here) and strip. -/
def sanitize_name_component (value : String) : String :=
  if value = "" then ""
  else pyStrip (String.mk (value.data.map
    (fun ch => if invalidNameChars.contains ch then '_' else ch)))

/-- Python `str` of the `MaterialFunctionAssignment` enumeration member. -/
def matFunStr : MaterialFunctionAssignment → String
  | .Structure => "Structure"
  | .Substrate => "Substrate"
  | .Insulation => "Insulation"
  | .Finish1 => "Finish1"
  | .Finish2 => "Finish2"
  | .Membrane => "Membrane"
  | .StructuralDeck => "StructuralDeck"

/-- `build_layer_type_name` (script.py lines 1321-1337): base type name,
layer ordinal, function, material name (fallback placeholder) and the
width in millimetres rounded to a whole number, joined and sanitized. -/
def build_layer_type_name (doc : Doc) (base : WallTypeRec) (layer : Layer)
    (index : Nat) : String :=
  let material_name :=
    match layer.materialId with
    | none => "Без материала"
    | some mid =>
      match docGetMaterial doc mid with
      | some mat => if mat.name ≠ "" then mat.name else "Без материала"
      | none => "Без материала"
  let width_mm := pyRoundDiv (layer.width.num * 3048) (layer.width.den * 10)
  let components := [sanitize_name_component base.name,
    "Слой " ++ natToStr (index + 1),
    sanitize_name_component (matFunStr layer.function),
    sanitize_name_component material_name,
    intToStr width_mm ++ "мм"]
  make_valid_wall_type_name (joinWith " - " (components.filter (fun p => p ≠ "")))

/-- `WallType.Duplicate(candidate_name)`: creates a copy of the type under
the new name, or fails with a name-collision-class error when the exact
name is in use or the host otherwise rejects the name (`rejectedNames`;
the type-catalog interface allows such failures). -/
def wallTypeDuplicate (doc : Doc) (base : WallTypeRec) (newName : String) :
    Except String (WallTypeRec × Doc) :=
  if (doc.wallTypes.find? (fun t => t.name == newName)).isSome
      ∨ doc.rejectedNames.contains newName
  then Except.error "имя занято"
  else
    let nt : WallTypeRec := { id := doc.nextId, name := newName, layers := base.layers }
    Except.ok (nt, { doc with
      wallTypes := doc.wallTypes ++ [nt],
      nextId := doc.nextId + 1 })

/-- The message of the `InvalidOperationException` raised when all naming
attempts are exhausted (script.py lines 763-769). -/
def name_exhausted_message (layer_index : Nat) : String :=
  "Не удалось подобрать уникальное имя типа для слоя " ++
    natToStr (layer_index + 1) ++
    ". Сократите имена материалов или исходных типов."

/-- The attempt loop of `duplicate_wall_type_with_safe_name` (script.py
lines 696-769): skip candidates whose normalized name is taken in the name
map, otherwise try the host `Duplicate`, treating its name-collision error
as one more failed attempt; register and return the first success. -/
def duplicate_loop (base : WallTypeRec) (base_name : String)
    (layer_index : Nat) :
    Nat → Nat → CmdState → Except String (WallTypeRec × CmdState)
  | 0, _, _ => Except.error (name_exhausted_message layer_index)
  | fuel + 1, attempt, s =>
    let raw_candidate := build_candidate_layer_type_name base_name attempt
    let candidate :=
      make_valid_wall_type_name raw_candidate MAX_LAYER_TYPE_NAME_LENGTH
    let name_key := normalize_wall_type_name candidate
    let p := get_wall_type_name_map s
    if (alistGet p.1 name_key).isSome
    then duplicate_loop base base_name layer_index fuel (attempt + 1) p.2
    else
      match wallTypeDuplicate p.2.doc base candidate with
      | Except.error _ =>
        duplicate_loop base base_name layer_index fuel (attempt + 1) p.2
      | Except.ok (nt, doc1) =>
        Except.ok (nt, register_wall_type { p.2 with doc := doc1 } nt)

/-- `duplicate_wall_type_with_safe_name` (script.py lines 692-769). -/
def duplicate_wall_type_with_safe_name (s : CmdState) (base : WallTypeRec)
    (desired_name : String) (layer_index : Nat) :
    Except String (WallTypeRec × CmdState) :=
  duplicate_loop base (prepare_layer_type_base_name desired_name) layer_index
    MAX_LAYER_TYPE_NAME_ATTEMPTS 1 s

/-- The cache-miss body of `get_or_create_layer_type` (script.py lines
657-690): exact case-insensitive scan of the document's wall types, then
the normalized name map, then duplication with a safe name followed by
replacing the duplicate's compound structure with the single layer. -/
def goclMain (s : CmdState) (base : WallTypeRec) (layer : Layer) (index : Nat)
    (cache_key : String) : Except String (WallTypeRec × CmdState) :=
  let type_name := build_layer_type_name s.doc base layer index
  match s.doc.wallTypes.find? (fun t => pyLower t.name == pyLower type_name) with
  | some candidate =>
    Except.ok (candidate,
      { s with layer_type_cache := alistSet s.layer_type_cache cache_key candidate.id })
  | none =>
    match find_wall_type_by_name s type_name with
    | (some existing, s1) =>
      Except.ok (existing,
        { s1 with layer_type_cache := alistSet s1.layer_type_cache cache_key existing.id })
    | (none, s1) =>
      match duplicate_wall_type_with_safe_name s1 base type_name index with
      | Except.error e => Except.error e
      | Except.ok (dup, s2) =>
        let dup2 : WallTypeRec := { dup with layers := [layer] }
        let doc2 : Doc := { s2.doc with
          wallTypes := s2.doc.wallTypes.map
            (fun t => if t.id == dup.id then dup2 else t) }
        Except.ok (dup2, { s2 with
          doc := doc2,
          layer_type_cache := alistSet s2.layer_type_cache cache_key dup.id })

/-- `get_or_create_layer_type` (script.py lines 637-690): consult the
cache, re-verify the cached type still exists (evicting it otherwise), and
fall through to `goclMain`. -/
def get_or_create_layer_type (s : CmdState) (base : WallTypeRec)
    (layer : Layer) (index : Nat) : Except String (WallTypeRec × CmdState) :=
  let cache_key := build_layer_type_key base.id layer index
  match alistGet s.layer_type_cache cache_key with
  | some cached_id =>
    match docGetWallType s.doc cached_id with
    | some existing => Except.ok (existing, s)
    | none =>
      goclMain { s with layer_type_cache := alistErase s.layer_type_cache cache_key }
        base layer index cache_key
  | none => goclMain s base layer index cache_key

/-! ### Cache coherence invariants -/

/-- The cache key of a layer under a base type. -/
def cacheKeyOf (b : WallTypeRec) (l : Layer) (i : Nat) : String :=
  build_layer_type_key b.id l i

/-- Coherence of a command state: every cached identifier denotes a wall
type present in the document, type identifiers are pairwise distinct, and
all of them are below the allocator's next identifier. -/
def CacheInv (s : CmdState) : Prop :=
  (∀ p ∈ s.layer_type_cache, ∃ t ∈ s.doc.wallTypes, t.id = p.2) ∧
  (∀ t ∈ s.doc.wallTypes, t.id < s.doc.nextId) ∧
  (s.doc.wallTypes.map (fun t => t.id)).Nodup

theorem alistGet_set_self (m : List (String × Nat)) (k : String) (v : Nat) :
    alistGet (alistSet m k v) k = some v := by
  induction m with
  | nil => simp [alistSet, alistGet]
  | cons p rest ih =>
    unfold alistSet
    by_cases hp : p.1 == k
    · rw [if_pos hp]
      simp [alistGet]
    · rw [if_neg hp]
      unfold alistGet
      rw [if_neg hp]
      exact ih

theorem alistGet_set_ne (m : List (String × Nat)) (k k2 : String) (v : Nat)
    (h : k2 ≠ k) : alistGet (alistSet m k v) k2 = alistGet m k2 := by
  induction m with
  | nil =>
    simp only [alistSet, alistGet]
    rw [if_neg (by simpa using Ne.symm h)]
  | cons p rest ih =>
    unfold alistSet
    by_cases hp : p.1 == k
    · rw [if_pos hp]
      unfold alistGet
      rw [if_neg (by simpa using Ne.symm h)]
      rw [if_neg (by
        have hpk : p.1 = k := by simpa using hp
        simp [hpk]
        exact Ne.symm h)]
    · rw [if_neg hp]
      unfold alistGet
      by_cases hp2 : p.1 == k2
      · rw [if_pos hp2, if_pos hp2]
      · rw [if_neg hp2, if_neg hp2]
        exact ih

theorem mem_alistSet (m : List (String × Nat)) (k : String) (v : Nat) :
    ∀ p ∈ alistSet m k v, p = (k, v) ∨ p ∈ m := by
  induction m with
  | nil =>
    intro p hp
    simp [alistSet] at hp
    exact Or.inl hp
  | cons q rest ih =>
    intro p hp
    unfold alistSet at hp
    by_cases hq : q.1 == k
    · rw [if_pos hq] at hp
      rcases List.mem_cons.mp hp with h | h
      · exact Or.inl h
      · exact Or.inr (List.mem_cons_of_mem q h)
    · rw [if_neg hq] at hp
      rcases List.mem_cons.mp hp with h | h
      · exact Or.inr (by rw [h]; exact List.mem_cons_self q rest)
      · rcases ih p h with h2 | h2
        · exact Or.inl h2
        · exact Or.inr (List.mem_cons_of_mem q h2)

theorem alistGet_mem (m : List (String × Nat)) (k : String) (v : Nat)
    (h : alistGet m k = some v) : (k, v) ∈ m := by
  induction m with
  | nil => simp [alistGet] at h
  | cons p rest ih =>
    unfold alistGet at h
    by_cases hp : p.1 == k
    · rw [if_pos hp] at h
      have hpk : p.1 = k := by simpa using hp
      have hpv : p.2 = v := by simpa using h
      have : p = (k, v) := Prod.ext hpk hpv
      rw [← this]
      exact List.mem_cons_self p rest
    · rw [if_neg hp] at h
      exact List.mem_cons_of_mem p (ih h)

theorem mem_alistErase (m : List (String × Nat)) (k : String) :
    ∀ p ∈ alistErase m k, p ∈ m :=
  fun p hp => (List.mem_filter.mp hp).1

theorem alistGet_erase_self (m : List (String × Nat)) (k : String) :
    alistGet (alistErase m k) k = none := by
  induction m with
  | nil => rfl
  | cons p rest ih =>
    unfold alistErase at ih ⊢
    rw [List.filter_cons]
    by_cases hp : p.1 == k
    · rw [if_neg (by simp [hp])]
      exact ih
    · rw [if_pos (by simp [hp])]
      unfold alistGet
      rw [if_neg hp]
      exact ih

theorem docGetWallType_eq_some {doc : Doc} {id : Nat} {t : WallTypeRec}
    (h : docGetWallType doc id = some t) : t ∈ doc.wallTypes ∧ t.id = id :=
  ⟨List.mem_of_find?_eq_some h, by simpa using List.find?_some h⟩

theorem docGetWallType_isSome {doc : Doc} {id : Nat}
    (h : ∃ t ∈ doc.wallTypes, t.id = id) :
    ∃ u, docGetWallType doc id = some u ∧ u.id = id := by
  obtain ⟨t, htmem, htid⟩ := h
  have hsome : (docGetWallType doc id).isSome := by
    unfold docGetWallType
    rw [List.find?_isSome]
    exact ⟨t, htmem, by simp [htid]⟩
  obtain ⟨u, hu⟩ := Option.isSome_iff_exists.mp hsome
  exact ⟨u, hu, by simpa using List.find?_some hu⟩

theorem get_wall_type_name_map_preserves (s : CmdState) :
    (get_wall_type_name_map s).2.doc = s.doc ∧
    (get_wall_type_name_map s).2.layer_type_cache = s.layer_type_cache := by
  unfold get_wall_type_name_map
  cases s.wall_type_name_map <;> exact ⟨rfl, rfl⟩

theorem register_wall_type_preserves (s : CmdState) (wt : WallTypeRec) :
    (register_wall_type s wt).doc = s.doc ∧
    (register_wall_type s wt).layer_type_cache = s.layer_type_cache := by
  unfold register_wall_type
  by_cases h1 : wt.name = ""
  · rw [if_pos h1]
    exact ⟨rfl, rfl⟩
  · rw [if_neg h1]
    dsimp only
    by_cases h2 : normalize_wall_type_name wt.name = ""
    · rw [if_pos h2]
      exact ⟨rfl, rfl⟩
    · rw [if_neg h2]
      exact get_wall_type_name_map_preserves s

theorem wallTypeDuplicate_ok {doc : Doc} {base : WallTypeRec} {nm : String}
    {nt : WallTypeRec} {doc1 : Doc}
    (h : wallTypeDuplicate doc base nm = Except.ok (nt, doc1)) :
    doc1.wallTypes = doc.wallTypes ++ [nt] ∧
    doc1.nextId = doc.nextId + 1 ∧ nt.id = doc.nextId := by
  unfold wallTypeDuplicate at h
  split at h
  · exact absurd h (by simp)
  · simp only [Except.ok.injEq, Prod.mk.injEq] at h
    obtain ⟨hnt, hdoc⟩ := h
    rw [← hdoc, ← hnt]
    exact ⟨rfl, rfl, rfl⟩

theorem duplicate_loop_shape (base : WallTypeRec) (bn : String) (li : Nat) :
    ∀ (fuel att : Nat) (s : CmdState) {nt : WallTypeRec} {s' : CmdState},
      duplicate_loop base bn li fuel att s = Except.ok (nt, s') →
      s'.doc.wallTypes = s.doc.wallTypes ++ [nt] ∧
      s'.doc.nextId = s.doc.nextId + 1 ∧
      nt.id = s.doc.nextId ∧
      s'.layer_type_cache = s.layer_type_cache := by
  intro fuel
  induction fuel with
  | zero =>
    intro att s nt s' h
    simp [duplicate_loop] at h
  | succ fuel ih =>
    intro att s nt s' h
    unfold duplicate_loop at h
    dsimp only at h
    obtain ⟨hmdoc, hmcache⟩ := get_wall_type_name_map_preserves s
    split at h
    · obtain ⟨h1, h2, h3, h4⟩ := ih (att + 1) (get_wall_type_name_map s).2 h
      rw [hmdoc] at h1 h2 h3
      rw [hmcache] at h4
      exact ⟨h1, h2, h3, h4⟩
    · split at h
      · obtain ⟨h1, h2, h3, h4⟩ := ih (att + 1) (get_wall_type_name_map s).2 h
        rw [hmdoc] at h1 h2 h3
        rw [hmcache] at h4
        exact ⟨h1, h2, h3, h4⟩
      · rename_i nt0 doc1 hdup
        simp only [Except.ok.injEq, Prod.mk.injEq] at h
        obtain ⟨hnt, hs'⟩ := h
        obtain ⟨hd1, hd2, hd3⟩ := wallTypeDuplicate_ok hdup
        have hpres := register_wall_type_preserves
          { (get_wall_type_name_map s).2 with doc := doc1 } nt0
        rw [hs'] at hpres
        refine ⟨?_, ?_, ?_, ?_⟩
        · rw [hpres.1, ← hnt]
          show doc1.wallTypes = s.doc.wallTypes ++ [nt0]
          rw [hd1, hmdoc]
        · rw [hpres.1]
          show doc1.nextId = s.doc.nextId + 1
          rw [hd2, hmdoc]
        · rw [← hnt]
          show nt0.id = s.doc.nextId
          rw [hd3, hmdoc]
        · rw [hpres.2]
          exact hmcache

theorem alistGet_erase_ne (m : List (String × Nat)) (k k2 : String)
    (h : k2 ≠ k) : alistGet (alistErase m k) k2 = alistGet m k2 := by
  induction m with
  | nil => rfl
  | cons p rest ih =>
    unfold alistErase at ih ⊢
    rw [List.filter_cons]
    by_cases hp : p.1 == k
    · rw [if_neg (by simp [hp])]
      have hpk2 : (p.1 == k2) = false := by
        have hpk : p.1 = k := by simpa using hp
        simp [hpk]
        exact Ne.symm h
      have hr : alistGet (p :: rest) k2 = alistGet rest k2 := by
        simp [alistGet, hpk2]
      rw [hr]
      exact ih
    · rw [if_pos (by simp [hp])]
      unfold alistGet
      by_cases hp2 : p.1 == k2
      · rw [if_pos hp2, if_pos hp2]
      · rw [if_neg hp2, if_neg hp2]
        exact ih

theorem find_wall_type_by_name_snd (s : CmdState) (n : String) :
    (find_wall_type_by_name s n).2 = s ∨
    (find_wall_type_by_name s n).2 = (get_wall_type_name_map s).2 := by
  unfold find_wall_type_by_name
  by_cases h : n = ""
  · rw [if_pos h]
    exact Or.inl rfl
  · rw [if_neg h]
    dsimp only
    rcases halist : alistGet (get_wall_type_name_map s).1 (normalize_wall_type_name n)
      with _ | id
    · exact Or.inr rfl
    · exact Or.inr rfl

theorem find_wall_type_by_name_preserves (s : CmdState) (n : String) :
    (find_wall_type_by_name s n).2.doc = s.doc ∧
    (find_wall_type_by_name s n).2.layer_type_cache = s.layer_type_cache := by
  rcases find_wall_type_by_name_snd s n with h | h
  · rw [h]
    exact ⟨rfl, rfl⟩
  · rw [h]
    exact get_wall_type_name_map_preserves s

theorem find_wall_type_by_name_found {s : CmdState} {n : String}
    {t : WallTypeRec} {s1 : CmdState}
    (h : find_wall_type_by_name s n = (some t, s1)) : t ∈ s1.doc.wallTypes := by
  unfold find_wall_type_by_name at h
  by_cases hn : n = ""
  · rw [if_pos hn] at h
    exact absurd h (by simp)
  · rw [if_neg hn] at h
    dsimp only at h
    rcases halist : alistGet (get_wall_type_name_map s).1 (normalize_wall_type_name n)
      with _ | id
    · rw [halist] at h
      exact absurd h (by simp)
    · rw [halist] at h
      simp only [Prod.mk.injEq] at h
      obtain ⟨h1, h2⟩ := h
      rw [← h2]
      exact (docGetWallType_eq_some h1).1

theorem duplicate_safe_shape {s : CmdState} {base : WallTypeRec} {dn : String}
    {li : Nat} {nt : WallTypeRec} {s' : CmdState}
    (h : duplicate_wall_type_with_safe_name s base dn li = Except.ok (nt, s')) :
    s'.doc.wallTypes = s.doc.wallTypes ++ [nt] ∧
    s'.doc.nextId = s.doc.nextId + 1 ∧
    nt.id = s.doc.nextId ∧
    s'.layer_type_cache = s.layer_type_cache :=
  duplicate_loop_shape base (prepare_layer_type_base_name dn) li
    MAX_LAYER_TYPE_NAME_ATTEMPTS 1 s h

theorem exists_id_iff_mem_ids (L : List WallTypeRec) (n : Nat) :
    (∃ u ∈ L, u.id = n) ↔ n ∈ L.map (fun t => t.id) := by
  rw [List.mem_map]

theorem map_replace_ids (L : List WallTypeRec) (d : Nat) (nt : WallTypeRec)
    (hid : nt.id = d) :
    (L.map (fun t => if t.id == d then nt else t)).map (fun t => t.id) =
      L.map (fun t => t.id) := by
  induction L with
  | nil => rfl
  | cons a rest ih =>
    simp only [List.map_cons]
    by_cases h : a.id == d
    · rw [if_pos h]
      have ha : nt.id = a.id := by
        rw [hid]
        exact (by simpa using h : a.id = d).symm
      rw [ha, ih]
    · rw [if_neg h, ih]

theorem nodup_append_singleton (xs : List Nat) (a : Nat)
    (h1 : xs.Nodup) (h2 : a ∉ xs) : (xs ++ [a]).Nodup := by
  simp [List.nodup_append, h1]
  exact h2

theorem goclMain_post {s : CmdState} {b : WallTypeRec} {l : Layer} {i : Nat}
    {k0 : String} {t : WallTypeRec} {s2 : CmdState} (hinv : CacheInv s)
    (h : goclMain s b l i k0 = Except.ok (t, s2)) :
    CacheInv s2 ∧
    alistGet s2.layer_type_cache k0 = some t.id ∧
    (∃ u ∈ s2.doc.wallTypes, u.id = t.id) ∧
    (∀ n, (∃ u ∈ s.doc.wallTypes, u.id = n) → ∃ u ∈ s2.doc.wallTypes, u.id = n) ∧
    (∀ k, k ≠ k0 → alistGet s2.layer_type_cache k = alistGet s.layer_type_cache k) := by
  unfold goclMain at h
  dsimp only at h
  split at h
  · rename_i cand hfind
    simp only [Except.ok.injEq, Prod.mk.injEq] at h
    obtain ⟨ht, hs2⟩ := h
    subst ht
    subst hs2
    have hcmem : cand ∈ s.doc.wallTypes := List.mem_of_find?_eq_some hfind
    refine ⟨⟨?_, hinv.2.1, hinv.2.2⟩, alistGet_set_self _ _ _, ⟨cand, hcmem, rfl⟩,
      fun n hn => hn, fun k hk => alistGet_set_ne _ _ _ _ hk⟩
    intro p hp
    rcases mem_alistSet _ _ _ p hp with hpe | hpm
    · subst hpe
      exact ⟨cand, hcmem, rfl⟩
    · exact hinv.1 p hpm
  · rename_i hfind0
    split at h
    · rename_i existing s1 hfound
      simp only [Except.ok.injEq, Prod.mk.injEq] at h
      obtain ⟨ht, hs2⟩ := h
      subst ht
      subst hs2
      have hmem : existing ∈ s1.doc.wallTypes := find_wall_type_by_name_found hfound
      obtain ⟨hfd, hfc⟩ :=
        find_wall_type_by_name_preserves s (build_layer_type_name s.doc b l i)
      rw [hfound] at hfd hfc
      dsimp only at hfd hfc
      refine ⟨⟨?_, ?_, ?_⟩, alistGet_set_self _ _ _, ⟨existing, hmem, rfl⟩, ?_, ?_⟩
      · intro p hp
        rcases mem_alistSet _ _ _ p hp with hpe | hpm
        · subst hpe
          exact ⟨existing, hmem, rfl⟩
        · rw [hfc] at hpm
          obtain ⟨u, hu, huid⟩ := hinv.1 p hpm
          exact ⟨u, by rw [hfd]; exact hu, huid⟩
      · show ∀ u ∈ s1.doc.wallTypes, u.id < s1.doc.nextId
        rw [hfd]
        exact hinv.2.1
      · show (s1.doc.wallTypes.map (fun t => t.id)).Nodup
        rw [hfd]
        exact hinv.2.2
      · intro n hn
        show ∃ u ∈ s1.doc.wallTypes, u.id = n
        rw [hfd]
        exact hn
      · intro k hk
        rw [alistGet_set_ne _ _ _ _ hk, hfc]
    · rename_i s1 hfound
      split at h
      · exact Except.noConfusion h
      · rename_i dup s2m hdup
        simp only [Except.ok.injEq, Prod.mk.injEq] at h
        obtain ⟨ht, hs2⟩ := h
        obtain ⟨hsh1, hsh2, hsh3, hsh4⟩ := duplicate_safe_shape hdup
        obtain ⟨hfd, hfc⟩ :=
          find_wall_type_by_name_preserves s (build_layer_type_name s.doc b l i)
        rw [hfound] at hfd hfc
        dsimp only at hfd hfc
        subst ht
        subst hs2
        have hids : ((s2m.doc.wallTypes.map
              (fun u => if u.id == dup.id then { dup with layers := [l] } else u)).map
            (fun t => t.id))
            = s.doc.wallTypes.map (fun t => t.id) ++ [dup.id] := by
          rw [map_replace_ids s2m.doc.wallTypes dup.id { dup with layers := [l] } rfl,
            hsh1, List.map_append, hfd]
          rfl
        have hnextid : dup.id = s.doc.nextId := by
          rw [hsh3, hfd]
        have hs2next : s2m.doc.nextId = s.doc.nextId + 1 := by
          rw [hsh2, hfd]
        have hfresh : dup.id ∉ s.doc.wallTypes.map (fun t => t.id) := by
          intro hmem
          obtain ⟨v, hv, hvid⟩ := List.mem_map.mp hmem
          have hlt := hinv.2.1 v hv
          rw [hvid, hnextid] at hlt
          exact lt_irrefl _ hlt
        refine ⟨⟨?_, ?_, ?_⟩, ?_, ?_, ?_, ?_⟩
        · intro p hp
          rw [exists_id_iff_mem_ids, hids]
          rcases mem_alistSet _ _ _ p hp with hpe | hpm
          · subst hpe
            exact List.mem_append_right _ (by simp)
          · rw [hsh4, hfc] at hpm
            obtain ⟨u, hu, huid⟩ := hinv.1 p hpm
            exact List.mem_append_left _ (List.mem_map.mpr ⟨u, hu, huid⟩)
        · intro u hu
          have humem : u.id ∈ s.doc.wallTypes.map (fun t => t.id) ++ [dup.id] := by
            rw [← hids]
            exact List.mem_map_of_mem _ hu
          show u.id < s2m.doc.nextId
          rw [hs2next]
          rcases List.mem_append.mp humem with hl | hr
          · obtain ⟨v, hv, hvid⟩ := List.mem_map.mp hl
            rw [← hvid]
            exact Nat.lt_succ_of_lt (hinv.2.1 v hv)
          · have hue : u.id = dup.id := by simpa using hr
            rw [hue, hnextid]
            exact Nat.lt_succ_self _
        · rw [hids]
          exact nodup_append_singleton _ _ hinv.2.2 hfresh
        · exact alistGet_set_self _ _ _
        · rw [exists_id_iff_mem_ids, hids]
          exact List.mem_append_right _ (by simp)
        · intro n hn
          rw [exists_id_iff_mem_ids, hids]
          rw [exists_id_iff_mem_ids] at hn
          exact List.mem_append_left _ hn
        · intro k hk
          rw [alistGet_set_ne _ _ _ _ hk, hsh4, hfc]

theorem cacheInv_erase (s : CmdState) (k : String) (h : CacheInv s) :
    CacheInv { s with layer_type_cache := alistErase s.layer_type_cache k } :=
  ⟨fun p hp => h.1 p (mem_alistErase _ _ p hp), h.2.1, h.2.2⟩

theorem gocl_post {s : CmdState} {b : WallTypeRec} {l : Layer} {i : Nat}
    {t : WallTypeRec} {s2 : CmdState} (hinv : CacheInv s)
    (h : get_or_create_layer_type s b l i = Except.ok (t, s2)) :
    CacheInv s2 ∧
    alistGet s2.layer_type_cache (cacheKeyOf b l i) = some t.id ∧
    (∀ k, k ≠ cacheKeyOf b l i →
      alistGet s2.layer_type_cache k = alistGet s.layer_type_cache k) := by
  unfold get_or_create_layer_type at h
  dsimp only at h
  split at h
  · rename_i cached_id hc
    split at h
    · rename_i existing hg
      simp only [Except.ok.injEq, Prod.mk.injEq] at h
      obtain ⟨ht, hs2⟩ := h
      subst ht
      subst hs2
      have htid : existing.id = cached_id := (docGetWallType_eq_some hg).2
      refine ⟨hinv, ?_, fun k _ => rfl⟩
      rw [htid]
      exact hc
    · rename_i hg
      obtain ⟨hinv2, hkey, _, _, hother⟩ :=
        goclMain_post (cacheInv_erase s (build_layer_type_key b.id l i) hinv) h
      refine ⟨hinv2, hkey, ?_⟩
      intro k hk
      rw [hother k hk]
      exact alistGet_erase_ne _ _ _ hk
  · rename_i hc
    obtain ⟨hinv2, hkey, _, _, hother⟩ := goclMain_post hinv h
    exact ⟨hinv2, hkey, hother⟩

theorem gocl_cache_hit {s : CmdState} {b : WallTypeRec} {l : Layer} {i : Nat}
    {cid : Nat} (hinv : CacheInv s)
    (hk : alistGet s.layer_type_cache (cacheKeyOf b l i) = some cid) :
    ∃ u, get_or_create_layer_type s b l i = Except.ok (u, s) ∧ u.id = cid := by
  have hmem := alistGet_mem _ _ _ hk
  obtain ⟨w, hwmem, hwid⟩ := hinv.1 _ hmem
  obtain ⟨u, hu, huid⟩ := docGetWallType_isSome ⟨w, hwmem, hwid⟩
  refine ⟨u, ?_, huid⟩
  unfold get_or_create_layer_type
  dsimp only
  unfold cacheKeyOf at hk
  rw [hk]
  dsimp only
  rw [hu]

theorem gocl_preserves_entry {s3 s4 : CmdState} {b : WallTypeRec} {l : Layer}
    {i : Nat} {t : WallTypeRec} {key : String} {cid : Nat}
    (hinv : CacheInv s3)
    (hk : alistGet s3.layer_type_cache key = some cid)
    (h : get_or_create_layer_type s3 b l i = Except.ok (t, s4)) :
    CacheInv s4 ∧ alistGet s4.layer_type_cache key = some cid := by
  by_cases hkey : key = cacheKeyOf b l i
  · subst hkey
    obtain ⟨u, hu, huid⟩ := gocl_cache_hit hinv hk
    rw [h] at hu
    simp only [Except.ok.injEq, Prod.mk.injEq] at hu
    obtain ⟨htu, hs43⟩ := hu
    rw [hs43]
    exact ⟨hinv, hk⟩
  · obtain ⟨hinv4, _, hother⟩ := gocl_post hinv h
    refine ⟨hinv4, ?_⟩
    rw [hother key hkey]
    exact hk

/-- Reachability between command states through further
`get_or_create_layer_type` calls (arbitrary base types, layers and
indices): the states a run can pass through after a first resolution. -/
inductive GoclReach (s : CmdState) : CmdState → Prop
  | refl : GoclReach s s
  | step {s2 s3 : CmdState} {b : WallTypeRec} {l : Layer} {i : Nat}
      {t : WallTypeRec} :
      GoclReach s s2 →
      get_or_create_layer_type s2 b l i = Except.ok (t, s3) →
      GoclReach s s3

theorem goclReach_preserves {s2 s3 : CmdState} {key : String} {cid : Nat}
    (hreach : GoclReach s2 s3) (hinv : CacheInv s2)
    (hk : alistGet s2.layer_type_cache key = some cid) :
    CacheInv s3 ∧ alistGet s3.layer_type_cache key = some cid := by
  induction hreach with
  | refl => exact ⟨hinv, hk⟩
  | step hr hstep ih =>
    obtain ⟨hinvm, hkm⟩ := ih
    exact gocl_preserves_entry hinvm hkm hstep

/-- **C4** (corrected). Within one command run, the memoization guarantee
of `get_or_create_layer_type` holds over the full cache key — base type
identity together with the (material identity, layer index, width)
signature, not the signature alone: starting from a coherent state, once a
call for a base type and layer has resolved to a wall type, any later call
with the same base type, layer and index — after arbitrary intervening
`get_or_create_layer_type` calls — returns a wall type with the same
identifier and leaves the state unchanged, so no duplicate type is created
for a combination already resolved. -/
theorem C4_memoized_resolution {s s2 s3 : CmdState} {base : WallTypeRec}
    {layer : Layer} {index : Nat} {t : WallTypeRec}
    (hinv : CacheInv s)
    (h1 : get_or_create_layer_type s base layer index = Except.ok (t, s2))
    (hreach : GoclReach s2 s3) :
    ∃ u, get_or_create_layer_type s3 base layer index = Except.ok (u, s3) ∧
      u.id = t.id := by
  obtain ⟨hinv2, hkey, _⟩ := gocl_post hinv h1
  obtain ⟨hinv3, hkey3⟩ := goclReach_preserves hreach hinv2 hkey
  exact gocl_cache_hit hinv3 hkey3

/-- A concrete base wall type ("Тип А"). -/
def baseAc : WallTypeRec := { id := 1, name := "Тип А", layers := [] }

/-- A second concrete base wall type ("Тип Б"). -/
def baseBc : WallTypeRec := { id := 2, name := "Тип Б", layers := [] }

/-- A structural layer of width 2 without material: its (material
identity, index, width) signature does not mention the base type. -/
def layerC : Layer :=
  { width := 2, function := MaterialFunctionAssignment.Structure,
    materialId := none }

/-- A document holding the two base types. -/
def doc0c : Doc :=
  { wallTypes := [baseAc, baseBc], materials := [], rejectedNames := [],
    nextId := 3 }

/-- The initial command state over `doc0c`: empty cache, name map not yet
built. -/
def s0c : CmdState :=
  { doc := doc0c, layer_type_cache := [], wall_type_name_map := none }

/-- The state after a `get_or_create_layer_type` call. -/
def goclStep (s : CmdState) (b : WallTypeRec) (l : Layer) (i : Nat) :
    CmdState :=
  match get_or_create_layer_type s b l i with
  | Except.ok (_, s2) => s2
  | Except.error _ => s

/-- The wall type resolved by a `get_or_create_layer_type` call. -/
def goclTy (s : CmdState) (b : WallTypeRec) (l : Layer) (i : Nat) :
    WallTypeRec :=
  match get_or_create_layer_type s b l i with
  | Except.ok (t, _) => t
  | Except.error _ => b

/-- Two successive `get_or_create_layer_type` calls with distinct base
types but one shared layer: the two resolved type identifiers, and the
wall-type counts before and after. -/
def goclTwice (s : CmdState) (b1 b2 : WallTypeRec) (l : Layer) (i : Nat) :
    Option (Nat × Nat × Nat × Nat) :=
  match get_or_create_layer_type s b1 l i with
  | Except.error _ => none
  | Except.ok (t1, s1) =>
    match get_or_create_layer_type s1 b2 l i with
    | Except.error _ => none
    | Except.ok (t2, s2) =>
      some (t1.id, t2.id, s.doc.wallTypes.length, s2.doc.wallTypes.length)

/-- **C4** counterexample to the claim as stated: two calls whose layers
carry an identical (material identity, layer index, width) signature — the
very same layer `layerC` at index 0 — but hang off different base types
resolve to two distinct wall types (identifiers 3 and 4), growing the
document from 2 to 4 wall types: the guarantee is keyed on the base type
as well, not on the signature alone. -/
theorem C4_counterexample :
    goclTwice s0c baseAc baseBc layerC 0 = some (3, 4, 2, 4) ∧
    (3 : Nat) ≠ 4 :=
  ⟨rfl, by decide⟩

/-- Witness for **C4**: the memoization theorem instantiated at the
concrete first call on `s0c` for base `baseAc`, the reachable state being
the first call's post-state itself. -/
theorem C4_witness :
    ∃ u, get_or_create_layer_type (goclStep s0c baseAc layerC 0) baseAc
        layerC 0 =
        Except.ok (u, goclStep s0c baseAc layerC 0) ∧
      u.id = (goclTy s0c baseAc layerC 0).id :=
  C4_memoized_resolution
    (by unfold CacheInv; decide)
    (show get_or_create_layer_type s0c baseAc layerC 0 =
        Except.ok (goclTy s0c baseAc layerC 0, goclStep s0c baseAc layerC 0)
      from rfl)
    GoclReach.refl

/-! ### The batch: `split_wall` and `execute` -/

/-- The observable facts `split_wall` (script.py lines 456-636) reads off
one target wall before and after the layer loop: the wall's identifier,
its resolved base type (`try_get_wall_type`), whether it has a location
curve, the verdict of `can_delete_original_wall`, and whether deleting the
original succeeds. -/
structure WallModel where
  id : Nat
  baseTypeId : Option Nat
  hasLocationCurve : Bool
  canDelete : Bool
  deleteOk : Bool
  deriving DecidableEq

/-- `Wall.Create`: a fresh element identifier for the new layer wall. -/
def allocWall (s : CmdState) : Nat × CmdState :=
  (s.doc.nextId, { s with doc := { s.doc with nextId := s.doc.nextId + 1 } })

/-- The per-layer loop of `split_wall` (script.py lines 555-581): skip
non-positive widths, otherwise resolve the layer type — an
`InvalidOperationException` from `get_or_create_layer_type` propagates,
there is no handler in the loop — and create the new wall. -/
def split_layers_loop (base : WallTypeRec) :
    List (Nat × Layer) → CmdState → List Nat →
    Except String (List Nat × CmdState)
  | [], s, created => Except.ok (created, s)
  | (index, layer) :: rest, s, created =>
    if layer.width ≤ 0 then split_layers_loop base rest s created
    else
      match get_or_create_layer_type s base layer index with
      | Except.error e => Except.error e
      | Except.ok (_, s1) =>
        let p := allocWall s1
        split_layers_loop base rest p.2 (created ++ [p.1])

/-- `split_wall` (script.py lines 456-636): `none` is a reported skip, an
`Except.error` is an exception escaping to `execute`'s transaction
handler.  Geometry payloads (curves, offsets) are omitted; the control
flow and state changes are kept. -/
def split_wall_model (s : CmdState) (w : WallModel) :
    Except String (Option (List Nat) × CmdState) :=
  match w.baseTypeId with
  | none => Except.ok (none, s)
  | some btid =>
    match docGetWallType s.doc btid with
    | none => Except.ok (none, s)
    | some base =>
      if base.layers.length ≤ 1 then Except.ok (none, s)
      else if ¬ w.hasLocationCurve then Except.ok (none, s)
      else if ¬ w.canDelete then Except.ok (none, s)
      else
        match split_layers_loop base base.layers.enum s [] with
        | Except.error e => Except.error e
        | Except.ok (created, s1) =>
          if created = [] then Except.ok (none, s1)
          else if ¬ w.deleteOk
          then Except.error ("Не удалось удалить исходную стену (ID: " ++
            natToStr w.id ++ ").")
          else Except.ok (some created, s1)

/-- The outcome of `execute` (script.py lines 335-413): either the batch
transaction commits with the per-wall results, or everything is rolled
back — carrying the escaped error message, or `none` when no wall was
split. -/
inductive BatchOutcome where
  | committed (results : List (Nat × List Nat)) (s : CmdState)
  | rolledBack (error : Option String)
  deriving DecidableEq

/-- The wall loop of `execute` (script.py lines 346-378): walls are
processed in order inside one transaction; a skip (`none`) continues, an
exception aborts the loop — there is no per-wall handler. -/
def execute_loop :
    List WallModel → CmdState → List (Nat × List Nat) →
    Except String (List (Nat × List Nat) × CmdState)
  | [], s, acc => Except.ok (acc, s)
  | w :: rest, s, acc =>
    match split_wall_model s w with
    | Except.error e => Except.error e
    | Except.ok (none, s1) => execute_loop rest s1 acc
    | Except.ok (some created, s1) => execute_loop rest s1 (acc ++ [(w.id, created)])

/-- `execute` (script.py lines 335-413): an exception anywhere in the wall
loop reaches the transaction handler, which rolls the transaction back and
re-raises into the group handler, which rolls the group back — nothing
commits; with no exception the batch rolls back when no wall was split and
commits otherwise. -/
def execute_model (walls : List WallModel) (s : CmdState) : BatchOutcome :=
  match execute_loop walls s [] with
  | Except.error e => BatchOutcome.rolledBack (some e)
  | Except.ok (results, s1) =>
    if results = [] then BatchOutcome.rolledBack none
    else BatchOutcome.committed results s1

theorem execute_loop_append (l2 : List WallModel) :
    ∀ (l1 : List WallModel) (s : CmdState) (acc acc' : List (Nat × List Nat))
      (s' : CmdState),
      execute_loop l1 s acc = Except.ok (acc', s') →
      execute_loop (l1 ++ l2) s acc = execute_loop l2 s' acc' := by
  intro l1
  induction l1 with
  | nil =>
    intro s acc acc' s' h
    simp only [execute_loop, Except.ok.injEq, Prod.mk.injEq] at h
    obtain ⟨hacc, hs⟩ := h
    rw [List.nil_append, hacc, hs]
  | cons w rest ih =>
    intro s acc acc' s' h
    rw [List.cons_append]
    simp only [execute_loop] at h ⊢
    split at h
    · exact Except.noConfusion h
    · rename_i s1 hsp
      exact ih _ _ _ _ h
    · rename_i created s1 hsp
      exact ih _ _ _ _ h

/-- **C5** (corrected).  When `duplicate_wall_type_with_safe_name`
exhausts all naming attempts, the `InvalidOperationException` it raises
escapes `split_wall` — there is no per-wall handler in `execute`'s loop —
so the whole batch is rolled back: walls before the failing one lose their
results, walls after it are never processed, and nothing commits. -/
theorem C5_exhaustion_aborts_batch (pre post : List WallModel)
    (w : WallModel) (s0 s1 : CmdState) (acc : List (Nat × List Nat))
    (li : Nat)
    (hpre : execute_loop pre s0 [] = Except.ok (acc, s1))
    (hw : split_wall_model s1 w = Except.error (name_exhausted_message li)) :
    execute_model (pre ++ w :: post) s0 =
      BatchOutcome.rolledBack (some (name_exhausted_message li)) := by
  unfold execute_model
  rw [execute_loop_append (w :: post) pre s0 [] acc s1 hpre]
  unfold execute_loop
  rw [hw]

/-- A base wall type with two positive-width layers whose generated layer
type names the host will reject. -/
def baseFc : WallTypeRec := { id := 1, name := "Тип Ф", layers := [layerC, layerC] }

/-- A base wall type with two positive-width layers whose generated layer
type names are free. -/
def baseGc : WallTypeRec := { id := 2, name := "Тип Г", layers := [layerC, layerC] }

/-- A document with no materials, used only to compute candidate names (a
layer without material never consults the document). -/
def docDummyc : Doc :=
  { wallTypes := [], materials := [], rejectedNames := [], nextId := 0 }

/-- All `MAX_LAYER_TYPE_NAME_ATTEMPTS` candidate names the naming loop can
try for the first layer of `baseFc`. -/
def rejectedAllC : List String :=
  (List.range MAX_LAYER_TYPE_NAME_ATTEMPTS).map
    (fun a =>
      make_valid_wall_type_name
        (build_candidate_layer_type_name
          (prepare_layer_type_base_name
            (build_layer_type_name docDummyc baseFc layerC 0))
          (a + 1))
        MAX_LAYER_TYPE_NAME_LENGTH)

/-- A document in which every candidate name for `baseFc`'s first layer is
rejected by the host, while `baseGc`'s candidates are free. -/
def doc5c : Doc :=
  { wallTypes := [baseFc, baseGc], materials := [],
    rejectedNames := rejectedAllC, nextId := 3 }

/-- The command state over `doc5c`. -/
def s5c : CmdState :=
  { doc := doc5c, layer_type_cache := [], wall_type_name_map := none }

/-- A wall of type `baseFc`: its split exhausts the naming attempts. -/
def wFc : WallModel :=
  { id := 101, baseTypeId := some 1, hasLocationCurve := true,
    canDelete := true, deleteOk := true }

/-- A wall of type `baseGc`: its split succeeds. -/
def wGc : WallModel :=
  { id := 102, baseTypeId := some 2, hasLocationCurve := true,
    canDelete := true, deleteOk := true }

set_option maxHeartbeats 4000000 in
/-- **C5** counterexample to the claim as stated: in a batch where the
first wall's split exhausts all 50 naming attempts, the raised error rolls
the whole batch back — the second wall, which on its own splits
successfully and commits, is never processed and nothing commits — rather
than aborting only the failing wall's split. -/
theorem C5_counterexample :
    execute_model [wFc, wGc] s5c =
      BatchOutcome.rolledBack (some (name_exhausted_message 0)) ∧
    ∃ res s', execute_model [wGc] s5c = BatchOutcome.committed res s' ∧
      res ≠ [] :=
  ⟨rfl, ⟨_, _, rfl, by decide⟩⟩

set_option maxHeartbeats 4000000 in
/-- Witness for **C5**: the abort theorem instantiated at the concrete
batch — empty prefix, failing wall `wFc`, later wall `wGc`. -/
theorem C5_witness :
    execute_model ([] ++ wFc :: [wGc]) s5c =
      BatchOutcome.rolledBack (some (name_exhausted_message 0)) :=
  C5_exhaustion_aborts_batch [] [wGc] wFc s5c s5c [] 0 rfl rfl

/-! ### `can_delete_original_wall` (script.py lines 1014-1136) -/

/-- The facts the deletion checks read off one document element: identity,
category and name (for descriptions), object validity, whether it is a
`HostObject` (`can_element_be_safely_unjoined`), whether
`try_unjoin_geometry` succeeds on it, and its element class for the
design-option, assembly and phase description builders. -/
structure ElemView where
  id : Nat
  categoryName : String
  name : String
  isValidObject : Bool
  isHostObject : Bool
  unjoinOk : Bool
  isDesignOption : Bool
  isAssembly : Bool
  isPhase : Bool
  deriving DecidableEq

/-- The document state the deletion checks consult. -/
structure DocState where
  isModifiable : Bool
  isWorkshared : Bool
  usernameRaw : String
  activeDesignOption : Option Nat
  activePhaseId : Option Nat
  elements : List ElemView
  deriving DecidableEq

/-- One wall's state for the deletion checks (`None`/invalid identifiers
in the joined and dependent lists are `none`). -/
structure WallState where
  id : Nat
  joinedIds : List (Option Nat)
  ownerRaw : String
  worksetValid : Bool
  workset : Option (String × Bool)
  pinned : Bool
  grouped : Bool
  designOptionId : Option Nat
  assemblyId : Option Nat
  partsAssociated : Bool
  phaseParam : Option Nat
  dependents : List (Option Nat)
  deriving DecidableEq

/-- `document.GetElement` over the deletion-check view. -/
def docGetElem (doc : DocState) (eid : Nat) : Option ElemView :=
  doc.elements.find? (fun e => e.id == eid)

/-- `build_element_description` (script.py lines 1544-1554). -/
def build_element_descr : Option ElemView → String
  | none => "неизвестный элемент"
  | some e =>
    if e.categoryName ≠ "" ∧ e.name ≠ "" then
      e.categoryName ++ " \"" ++ e.name ++ "\" (ID " ++ natToStr e.id ++ ")"
    else if e.name ≠ "" then e.name ++ " (ID " ++ natToStr e.id ++ ")"
    else "ID " ++ natToStr e.id

/-- Python string `<` (lexicographic by code point) on character lists. -/
def lexLtChars : List Char → List Char → Bool
  | _, [] => false
  | [], _ :: _ => true
  | a :: as, b :: bs =>
    if a.toNat < b.toNat then true
    else if b.toNat < a.toNat then false
    else lexLtChars as bs

/-- Python string `<`. -/
def strLt (a b : String) : Bool := lexLtChars a.data b.data

/-- Insertion into a sorted list of strings. -/
def insertSorted (x : String) : List String → List String
  | [] => [x]
  | y :: ys => if strLt x y then x :: y :: ys else y :: insertSorted x ys

/-- Python `sorted` on strings (insertion sort). -/
def sortStrings : List String → List String
  | [] => []
  | x :: xs => insertSorted x (sortStrings xs)

/-- Duplicate removal (Python `set`; the subsequent sort makes the
retained occurrence irrelevant). -/
def dedupStrings : List String → List String
  | [] => []
  | x :: xs => if x ∈ xs then dedupStrings xs else x :: dedupStrings xs

/-- Python `sorted(set(xs))` on strings. -/
def sortedSet (xs : List String) : List String := sortStrings (dedupStrings xs)

theorem mem_insertSorted {x y : String} :
    ∀ {l : List String}, x ∈ insertSorted y l → x = y ∨ x ∈ l := by
  intro l
  induction l with
  | nil =>
    intro h
    simp [insertSorted] at h
    exact Or.inl h
  | cons z zs ih =>
    intro h
    unfold insertSorted at h
    split at h
    · rcases List.mem_cons.mp h with h1 | h1
      · exact Or.inl h1
      · exact Or.inr h1
    · rcases List.mem_cons.mp h with h1 | h1
      · exact Or.inr (by rw [h1]; exact List.mem_cons_self z zs)
      · rcases ih h1 with h2 | h2
        · exact Or.inl h2
        · exact Or.inr (List.mem_cons_of_mem z h2)

theorem mem_sortStrings {x : String} :
    ∀ {l : List String}, x ∈ sortStrings l → x ∈ l := by
  intro l
  induction l with
  | nil => intro h; simp [sortStrings] at h
  | cons z zs ih =>
    intro h
    unfold sortStrings at h
    rcases mem_insertSorted h with h1 | h1
    · rw [h1]; exact List.mem_cons_self z zs
    · exact List.mem_cons_of_mem z (ih h1)

theorem mem_dedupStrings {x : String} :
    ∀ {l : List String}, x ∈ dedupStrings l → x ∈ l := by
  intro l
  induction l with
  | nil => intro h; simp [dedupStrings] at h
  | cons z zs ih =>
    intro h
    unfold dedupStrings at h
    split at h
    · exact List.mem_cons_of_mem z (ih h)
    · rcases List.mem_cons.mp h with h1 | h1
      · rw [h1]; exact List.mem_cons_self z zs
      · exact List.mem_cons_of_mem z (ih h1)

theorem insertSorted_ne_nil (x : String) (l : List String) :
    insertSorted x l ≠ [] := by
  cases l with
  | nil => simp [insertSorted]
  | cons y ys =>
    unfold insertSorted
    split <;> simp

theorem dedupStrings_ne_nil {l : List String} (h : l ≠ []) :
    dedupStrings l ≠ [] := by
  induction l with
  | nil => exact absurd rfl h
  | cons z zs ih =>
    unfold dedupStrings
    split
    · rename_i hmem
      exact ih (by intro hnil; rw [hnil] at hmem; simp at hmem)
    · simp

theorem sortedSet_ne_nil {l : List String} (h : l ≠ []) : sortedSet l ≠ [] := by
  unfold sortedSet
  have h2 := dedupStrings_ne_nil h
  cases hd : dedupStrings l with
  | nil => exact absurd hd h2
  | cons y ys =>
    unfold sortStrings
    exact insertSorted_ne_nil y (sortStrings ys)

theorem mem_sortedSet {x : String} {l : List String} (h : x ∈ sortedSet l) :
    x ∈ l :=
  mem_dedupStrings (mem_sortStrings h)

/-- A string is nonempty and does not end in whitespace. -/
def EndsOk (s : String) : Prop :=
  s.data ≠ [] ∧ ∀ c, s.data.getLast? = some c → pyIsSpace c = false

/-- A string does not begin with whitespace. -/
def StartOk (s : String) : Prop :=
  ∀ c, s.data.head? = some c → pyIsSpace c = false

theorem getLast?_append_right {l1 l2 : List Char} (h : l2 ≠ []) :
    (l1 ++ l2).getLast? = l2.getLast? := by
  rw [List.getLast?_append]
  cases hl : l2.getLast? with
  | none => exact absurd (List.getLast?_eq_none_iff.mp hl) h
  | some c => rfl

theorem head?_append_left {l1 l2 : List Char} (h : l1 ≠ []) :
    (l1 ++ l2).head? = l1.head? := by
  cases l1 with
  | nil => exact absurd rfl h
  | cons a t => rfl

theorem EndsOk_append (a : String) {b : String} (hb : EndsOk b) :
    EndsOk (a ++ b) := by
  obtain ⟨h1, h2⟩ := hb
  refine ⟨?_, ?_⟩
  · rw [String.data_append]
    intro h
    exact h1 (List.append_eq_nil.mp h).2
  · intro c hc
    rw [String.data_append, getLast?_append_right h1] at hc
    exact h2 c hc

theorem EndsOk_of_concrete {s : String} (c0 : Char)
    (h : s.data.getLast? = some c0) (hws : pyIsSpace c0 = false) :
    EndsOk s := by
  refine ⟨?_, ?_⟩
  · intro hnil
    rw [hnil] at h
    exact Option.noConfusion h
  · intro c hc
    rw [h] at hc
    injection hc with e
    rw [← e]
    exact hws

theorem StartOk_of_concrete {s : String} (c0 : Char)
    (h : s.data.head? = some c0) (hws : pyIsSpace c0 = false) :
    StartOk s := by
  intro c hc
  rw [h] at hc
  injection hc with e
  rw [← e]
  exact hws

theorem StartOk_append_left {a : String} (ha : StartOk a) (hne : a.data ≠ [])
    (b : String) : StartOk (a ++ b) := by
  intro c hc
  rw [String.data_append, head?_append_left hne] at hc
  exact ha c hc

/-- Strip is the identity on a string that neither begins nor ends with
whitespace. -/
theorem pyStrip_eq_self {s : String} (h1 : StartOk s) (h2 : EndsOk s) :
    pyStrip s = s := by
  unfold pyStrip
  rw [pyStripList_eq_self_of_edge h1 h2.2]

theorem natDigitsAux_ne_nil : ∀ (f n : Nat) (acc : List Char), acc ≠ [] →
    natDigitsAux f n acc ≠ [] := by
  intro f
  induction f with
  | zero => intro n acc h; exact h
  | succ f ih =>
    intro n acc h
    unfold natDigitsAux
    by_cases hn : n < 10
    · rw [if_pos hn]
      simp
    · rw [if_neg hn]
      exact ih _ _ (by simp)

theorem natDigits_ne_nil (n : Nat) : natDigits n ≠ [] := by
  unfold natDigits
  by_cases hn : n < 10
  · rw [natDigitsAux_small [] (by omega) hn]
    simp
  · have h1 : natDigitsAux (n + 1) n [] =
        natDigitsAux n (n / 10) [Nat.digitChar (n % 10)] := by
      conv_lhs => unfold natDigitsAux
      rw [if_neg hn]
    rw [h1]
    exact natDigitsAux_ne_nil _ _ _ (by simp)

theorem EndsOk_natToStr (n : Nat) : EndsOk (natToStr n) := by
  refine ⟨natDigits_ne_nil n, ?_⟩
  intro c hc
  have hmem : c ∈ natDigits n := by
    rw [List.getLast?_eq_head?_reverse] at hc
    exact List.mem_reverse.mp (List.mem_of_mem_head? hc)
  exact natDigits_not_ws c hmem

theorem EndsOk_descr (oe : Option ElemView) : EndsOk (build_element_descr oe) := by
  cases oe with
  | none => exact EndsOk_of_concrete 'т' (by decide) (by decide)
  | some e =>
    simp only [build_element_descr]
    split
    · exact EndsOk_append _ (EndsOk_of_concrete ')' (by decide) (by decide))
    · split
      · exact EndsOk_append _ (EndsOk_of_concrete ')' (by decide) (by decide))
      · exact EndsOk_append "ID " (EndsOk_natToStr e.id)

theorem joinWith_EndsOk (sep : String) :
    ∀ (L : List String), L ≠ [] → (∀ s ∈ L, EndsOk s) →
      EndsOk (joinWith sep L) := by
  intro L
  induction L with
  | nil => intro h _; exact absurd rfl h
  | cons s rest ih =>
    intro _ hall
    cases rest with
    | nil => exact hall s (by simp)
    | cons t rest2 =>
      have hEnd := ih (by simp) (fun x hx => hall x (List.mem_cons_of_mem s hx))
      show EndsOk (s ++ sep ++ joinWith sep (t :: rest2))
      exact EndsOk_append (s ++ sep) hEnd

/-- `get_document_username` (script.py lines 1492-1507): the application
username stripped; a missing application or username is the empty raw
string. -/
def get_document_username (doc : DocState) : String := pyStrip doc.usernameRaw

/-- `get_element_owner_name` (script.py lines 1510-1523): the `EDITED_BY`
parameter value stripped; a missing parameter or value is the empty raw
string. -/
def get_element_owner_name (w : WallState) : String := pyStrip w.ownerRaw

/-- `add_blocking_reason` (script.py lines 1233-1238): strip the reason,
append it unless empty or already recorded. -/
def add_blocking_reason (rs : List String) (reason : String) : List String :=
  if reason = "" then rs
  else
    let normalized := pyStrip reason
    if normalized = "" then rs
    else if normalized ∈ rs then rs
    else rs ++ [normalized]

/-- The loop of `try_detach_joined_elements` (script.py lines 1138-1166)
over the joined elements, threading (detached ids, failure messages,
blocked ids): an element that cannot be safely unjoined reports a failure
once per identifier; an unjoin failure reports a failure; a successful
unjoin records the identifier as detached. -/
def detachFold (doc : DocState) :
    List (Option Nat) → List Nat × List String × List Nat →
    List Nat × List String × List Nat
  | [], st => st
  | none :: rest, st => detachFold doc rest st
  | some jid :: rest, st =>
    match docGetElem doc jid with
    | none =>
      detachFold doc rest
        (st.1,
         (if jid ∈ st.2.2 then st.2.1
          else st.2.1 ++ [build_element_descr none]),
         (if jid ∈ st.2.2 then st.2.2 else st.2.2 ++ [jid]))
    | some e =>
      if !e.isHostObject then
        detachFold doc rest
          (st.1,
           (if jid ∈ st.2.2 then st.2.1
            else st.2.1 ++ [build_element_descr (some e)]),
           (if jid ∈ st.2.2 then st.2.2 else st.2.2 ++ [jid]))
      else if e.unjoinOk then
        detachFold doc rest (st.1 ++ [jid], st.2.1, st.2.2)
      else
        detachFold doc rest
          (st.1, st.2.1 ++ [build_element_descr (some e)], st.2.2)

/-- `try_detach_joined_elements` (script.py lines 1138-1166): the detached
identifiers and the failure messages. -/
def try_detach_joined_elements (doc : DocState) (w : WallState) :
    List Nat × List String :=
  let r := detachFold doc w.joinedIds ([], [], [])
  (r.1, r.2.1)

/-- The dependent-element descriptions collected by the final check of
`can_delete_original_wall` (script.py lines 1113-1128). -/
def depDescrs (doc : DocState) (w : WallState) (det : List Nat)
    (detachedJoined : List Nat) : List String :=
  w.dependents.foldl
    (fun acc oid =>
      match oid with
      | none => acc
      | some did =>
        if did == w.id then acc
        else if did ∈ det then acc
        else if did ∈ detachedJoined then acc
        else
          match docGetElem doc did with
          | none => acc
          | some e =>
            if !e.isValidObject then acc
            else acc ++ [build_element_descr (some e)])
    []

/-- `build_design_option_description` (script.py lines 1570-1577). -/
def build_design_option_description (doc : DocState) (oid : Nat) : String :=
  match docGetElem doc oid with
  | some e =>
    if e.isDesignOption ∧ e.name ≠ "" then
      "\"" ++ e.name ++ "\" (ID " ++ natToStr oid ++ ")"
    else "ID " ++ natToStr oid
  | none => "ID " ++ natToStr oid

/-- `build_assembly_description` (script.py lines 1580-1587). -/
def build_assembly_description (doc : DocState) (aid : Nat) : String :=
  match docGetElem doc aid with
  | some e =>
    if e.isAssembly ∧ e.name ≠ "" then
      "\"" ++ e.name ++ "\" (ID " ++ natToStr aid ++ ")"
    else "ID " ++ natToStr aid
  | none => "ID " ++ natToStr aid

/-- `build_phase_description` (script.py lines 1590-1597). -/
def build_phase_description (doc : DocState) (pid : Nat) : String :=
  match docGetElem doc pid with
  | some e =>
    if e.isPhase ∧ e.name ≠ "" then
      "\"" ++ e.name ++ "\" (ID " ++ natToStr pid ++ ")"
    else "ID " ++ natToStr pid
  | none => "ID " ++ natToStr pid

/-- The join-detach-failure fragment (script.py lines 1035-1038). -/
def frag1 (failures : List String) : String :=
  "не удалось разорвать соединение со следующими элементами: " ++
    joinWith ", " (sortedSet failures)

/-- The read-only-document fragment (script.py lines 1040-1042). -/
def frag2 : String := "документ открыт только для чтения — изменения недоступны"

/-- The owned-by-another-user fragment (script.py lines 1047-1051). -/
def frag3 (owner : String) : String :=
  if owner ≠ "" then "стена занята пользователем \"" ++ owner ++ "\""
  else "стена занята другим пользователем"

/-- The non-editable-workset fragment (script.py lines 1059-1065). -/
def frag4 (nm : String) : String :=
  "рабочий набор \"" ++ nm ++ "\" не передан вам"

/-- The pinned fragment (script.py line 1068). -/
def frag5 : String := "стена закреплена командой Pin"

/-- The grouped fragment (script.py line 1071). -/
def frag6 : String := "стена входит в группу"

/-- The inactive-design-option fragment (script.py lines 1082-1085). -/
def frag7 (doc : DocState) (oid : Nat) : String :=
  "стена принадлежит неактивной дизайн-опции " ++
    build_design_option_description doc oid

/-- The assembly-membership fragment (script.py lines 1087-1090). -/
def frag8 (doc : DocState) (aid : Nat) : String :=
  "стена входит в сборку " ++ build_assembly_description doc aid

/-- The parts-association fragment (script.py lines 1092-1100). -/
def frag9 : String := "стена разбита на части (Parts)"

/-- The phase-mismatch fragment (script.py lines 1102-1108). -/
def frag10 (doc : DocState) (pid : Nat) : String :=
  "стена создана в фазе " ++ build_phase_description doc pid ++
    ", отличной от фазы активного вида"

/-- The remaining-dependents fragment (script.py lines 1125-1128). -/
def frag11 (descrs : List String) : String :=
  "у стены остались зависимые элементы: " ++ joinWith ", " (sortedSet descrs)

/-- `can_delete_original_wall` (script.py lines 1014-1136), the sequential
translation (the initial null-document/null-wall guard is unreachable in
the embedding, whose states are total values). -/
def can_delete_original_wall (doc : DocState) (w : WallState)
    (detached_family_ids : List Nat) : Bool × String :=
  let p := if doc.isModifiable then try_detach_joined_elements doc w
    else ([], [])
  let rs : List String := []
  let rs := if !p.2.isEmpty then add_blocking_reason rs (frag1 p.2) else rs
  let rs := if !doc.isModifiable then add_blocking_reason rs frag2 else rs
  let rs :=
    if doc.isWorkshared then
      let owner := get_element_owner_name w
      let current := get_document_username doc
      let rs1 :=
        if is_owned_by_another_user owner current then
          add_blocking_reason rs (frag3 owner)
        else rs
      if w.worksetValid then
        match w.workset with
        | some ws =>
          if !ws.2 then add_blocking_reason rs1 (frag4 ws.1) else rs1
        | none => rs1
      else rs1
    else rs
  let rs := if w.pinned then add_blocking_reason rs frag5 else rs
  let rs := if w.grouped then add_blocking_reason rs frag6 else rs
  let rs :=
    match w.designOptionId with
    | some oid =>
      if (match doc.activeDesignOption with
          | some a => oid != a
          | none => true) then
        add_blocking_reason rs (frag7 doc oid)
      else rs
    | none => rs
  let rs :=
    match w.assemblyId with
    | some aid => add_blocking_reason rs (frag8 doc aid)
    | none => rs
  let rs := if w.partsAssociated then add_blocking_reason rs frag9 else rs
  let rs :=
    match w.phaseParam with
    | some pid =>
      if (match doc.activePhaseId with
          | some ap => ap != pid
          | none => false) then
        add_blocking_reason rs (frag10 doc pid)
      else rs
    | none => rs
  let rs :=
    if rs.isEmpty then
      let descrs := depDescrs doc w detached_family_ids p.1
      if !descrs.isEmpty then add_blocking_reason rs (frag11 descrs) else rs
    else rs
  if !rs.isEmpty then (false, joinWith "; " rs) else (true, "")

/-- The ten unconditional blocking checks of `can_delete_original_wall` in
source order, each as (condition, fragment); checks whose data is absent
(`none`) carry a false condition and a placeholder fragment. -/
def blocking_checks (doc : DocState) (w : WallState) : List (Bool × String) :=
  let p := if doc.isModifiable then try_detach_joined_elements doc w
    else ([], [])
  [(!p.2.isEmpty, frag1 p.2),
   (!doc.isModifiable, frag2),
   (doc.isWorkshared &&
      is_owned_by_another_user (get_element_owner_name w)
        (get_document_username doc),
    frag3 (get_element_owner_name w)),
   (doc.isWorkshared && (w.worksetValid &&
      (match w.workset with
       | some ws => !ws.2
       | none => false)),
    match w.workset with
    | some ws => frag4 ws.1
    | none => ""),
   (w.pinned, frag5),
   (w.grouped, frag6),
   ((match w.designOptionId with
     | some oid =>
       (match doc.activeDesignOption with
        | some a => oid != a
        | none => true)
     | none => false),
    match w.designOptionId with
    | some oid => frag7 doc oid
    | none => ""),
   ((match w.assemblyId with
     | some _ => true
     | none => false),
    match w.assemblyId with
    | some aid => frag8 doc aid
    | none => ""),
   (w.partsAssociated, frag9),
   ((match w.phaseParam with
     | some pid =>
       (match doc.activePhaseId with
        | some ap => ap != pid
        | none => false)
     | none => false),
    match w.phaseParam with
    | some pid => frag10 doc pid
    | none => "")]

/-- The accumulation of `add_blocking_reason` over a list of (condition,
fragment) checks. -/
def runChecks : List (Bool × String) → List String → List String
  | [], rs => rs
  | c :: rest, rs =>
    runChecks rest (if c.1 then add_blocking_reason rs c.2 else rs)

/-- The specification's reading of the checks: the fragment of every true
condition, in source order; the dependents fragment appears exactly when
no other condition fired and blocking dependents remain. -/
def spec_blocking_fragments (doc : DocState) (w : WallState)
    (det : List Nat) : List String :=
  let base := ((blocking_checks doc w).filter (fun p => p.1)).map
    (fun p => p.2)
  let p := if doc.isModifiable then try_detach_joined_elements doc w
    else ([], [])
  let descrs := depDescrs doc w det p.1
  if base = [] ∧ descrs ≠ [] then [frag11 descrs] else base

set_option maxHeartbeats 3200000 in
theorem can_delete_shape (doc : DocState) (w : WallState) (det : List Nat) :
    can_delete_original_wall doc w det =
      (let rs := runChecks (blocking_checks doc w) []
       let p := if doc.isModifiable then try_detach_joined_elements doc w
         else ([], [])
       let rs2 :=
         if rs.isEmpty then
           (let descrs := depDescrs doc w det p.1
            if !descrs.isEmpty then add_blocking_reason rs (frag11 descrs)
            else rs)
         else rs
       if !rs2.isEmpty then (false, joinWith "; " rs2) else (true, "")) := by
  unfold can_delete_original_wall blocking_checks
  cases hws : doc.isWorkshared <;> cases hwv : w.worksetValid <;>
    cases hwk : w.workset <;> cases hdo : w.designOptionId <;>
    cases has : w.assemblyId <;> cases hph : w.phaseParam <;> rfl

theorem runChecks_spec :
    ∀ (checks : List (Bool × String)) (rs : List String),
      (∀ p ∈ checks, p.1 = true → pyStrip p.2 = p.2 ∧ p.2 ≠ "" ∧ p.2 ∉ rs) →
      List.Pairwise (fun p q => p.1 = true → q.1 = true → p.2 ≠ q.2) checks →
      runChecks checks rs =
        rs ++ (checks.filter (fun p => p.1)).map (fun p => p.2) := by
  intro checks
  induction checks with
  | nil =>
    intro rs _ _
    simp [runChecks]
  | cons c rest ih =>
    intro rs hP hR
    unfold runChecks
    by_cases hc : c.1 = true
    · rw [if_pos hc]
      obtain ⟨hstrip, hne, hnotin⟩ := hP c (List.mem_cons_self c rest) hc
      have hadd : add_blocking_reason rs c.2 = rs ++ [c.2] := by
        unfold add_blocking_reason
        rw [if_neg hne]
        dsimp only
        rw [hstrip]
        rw [if_neg hne]
        rw [if_neg hnotin]
      rw [hadd]
      rw [ih (rs ++ [c.2]) ?_ (List.Pairwise.of_cons hR)]
      · rw [List.filter_cons_of_pos hc]
        simp [List.append_assoc]
      · intro p hp hpt
        obtain ⟨s1, s2, s3⟩ := hP p (List.mem_cons_of_mem c hp) hpt
        refine ⟨s1, s2, ?_⟩
        intro hmem
        rcases List.mem_append.mp hmem with h1 | h1
        · exact s3 h1
        · have hpc : p.2 = c.2 := by simpa using h1
          exact (List.rel_of_pairwise_cons hR hp hc hpt) hpc.symm
    · rw [if_neg hc]
      rw [ih rs ?_ (List.Pairwise.of_cons hR)]
      · rw [List.filter_cons_of_neg (by simpa using hc)]
      · intro p hp hpt
        exact hP p (List.mem_cons_of_mem c hp) hpt

/-- The character of a string at a fixed position. -/
def charAt (s : String) (i : Nat) : Option Char := s.data[i]?

/-- A discriminator separating the eleven blocking fragments by characters
at positions inside their fixed prefixes. -/
def fragDiscr (f : String) : Nat :=
  match charAt f 0 with
  | some 'н' => 1
  | some 'д' => 2
  | some 'р' => 4
  | some 'у' => 11
  | some 'с' =>
    (match charAt f 6 with
     | some 'з' =>
       (match charAt f 8 with
        | some 'н' => 3
        | some 'к' => 5
        | _ => 0)
     | some 'в' =>
       (match charAt f 15 with
        | some 'г' => 6
        | some 'с' => 8
        | _ => 0)
     | some 'п' => 7
     | some 'р' => 9
     | some 'с' => 10
     | _ => 0)
  | _ => 0

theorem charAt_left (a b : String) (i : Nat) (h : i < a.data.length) :
    charAt (a ++ b) i = charAt a i := by
  unfold charAt
  rw [String.data_append]
  exact List.getElem?_append_left h

theorem discr_frag1 (fs : List String) : fragDiscr (frag1 fs) = 1 := by
  unfold fragDiscr frag1
  rw [charAt_left _ _ 0 (by decide)]
  rfl

theorem discr_frag2 : fragDiscr frag2 = 2 := by rfl

theorem discr_frag3 (o : String) : fragDiscr (frag3 o) = 3 := by
  unfold frag3
  split
  · unfold fragDiscr
    rw [String.append_assoc, charAt_left _ _ 0 (by decide),
      charAt_left _ _ 6 (by decide), charAt_left _ _ 8 (by decide)]
    rfl
  · rfl

theorem discr_frag4 (nm : String) : fragDiscr (frag4 nm) = 4 := by
  unfold fragDiscr frag4
  rw [String.append_assoc, charAt_left _ _ 0 (by decide)]
  rfl

theorem discr_frag5 : fragDiscr frag5 = 5 := by rfl

theorem discr_frag6 : fragDiscr frag6 = 6 := by rfl

theorem discr_frag7 (doc : DocState) (oid : Nat) :
    fragDiscr (frag7 doc oid) = 7 := by
  unfold fragDiscr frag7
  rw [charAt_left _ _ 0 (by decide), charAt_left _ _ 6 (by decide)]
  rfl

theorem discr_frag8 (doc : DocState) (aid : Nat) :
    fragDiscr (frag8 doc aid) = 8 := by
  unfold fragDiscr frag8
  rw [charAt_left _ _ 0 (by decide), charAt_left _ _ 6 (by decide),
    charAt_left _ _ 15 (by decide)]
  rfl

theorem discr_frag9 : fragDiscr frag9 = 9 := by rfl

theorem discr_frag10 (doc : DocState) (pid : Nat) :
    fragDiscr (frag10 doc pid) = 10 := by
  unfold fragDiscr frag10
  rw [show ("стена создана в фазе " ++ build_phase_description doc pid ++
      ", отличной от фазы активного вида") =
      ("стена создана в фазе " ++ (build_phase_description doc pid ++
      ", отличной от фазы активного вида")) from (String.append_assoc _ _ _),
    charAt_left _ _ 0 (by decide), charAt_left _ _ 6 (by decide)]
  rfl

theorem discr_frag11 (ds : List String) : fragDiscr (frag11 ds) = 11 := by
  unfold fragDiscr frag11
  rw [charAt_left _ _ 0 (by decide)]
  rfl

/-- A fragment that `add_blocking_reason` appends verbatim: strip-fixed
and nonempty. -/
def FragOk (f : String) : Prop := pyStrip f = f ∧ f ≠ ""

theorem ne_empty_of_data {s : String} (h : s.data ≠ []) : s ≠ "" :=
  fun he => h (by rw [he])

theorem data_append_ne_nil_left {a : String} (h : a.data ≠ []) (b : String) :
    (a ++ b).data ≠ [] := by
  rw [String.data_append]
  intro hh
  exact h (List.append_eq_nil.mp hh).1

theorem FragOk_of_edges {f : String} (h1 : StartOk f) (h2 : EndsOk f) :
    FragOk f :=
  ⟨pyStrip_eq_self h1 h2, ne_empty_of_data h2.1⟩

theorem EndsOk_build_design (doc : DocState) (oid : Nat) :
    EndsOk (build_design_option_description doc oid) := by
  unfold build_design_option_description
  split
  · split
    · exact EndsOk_append _ (EndsOk_of_concrete ')' (by decide) (by decide))
    · exact EndsOk_append "ID " (EndsOk_natToStr oid)
  · exact EndsOk_append "ID " (EndsOk_natToStr oid)

theorem EndsOk_build_assembly (doc : DocState) (aid : Nat) :
    EndsOk (build_assembly_description doc aid) := by
  unfold build_assembly_description
  split
  · split
    · exact EndsOk_append _ (EndsOk_of_concrete ')' (by decide) (by decide))
    · exact EndsOk_append "ID " (EndsOk_natToStr aid)
  · exact EndsOk_append "ID " (EndsOk_natToStr aid)

theorem EndsOk_build_phase (doc : DocState) (pid : Nat) :
    EndsOk (build_phase_description doc pid) := by
  unfold build_phase_description
  split
  · split
    · exact EndsOk_append _ (EndsOk_of_concrete ')' (by decide) (by decide))
    · exact EndsOk_append "ID " (EndsOk_natToStr pid)
  · exact EndsOk_append "ID " (EndsOk_natToStr pid)

theorem detachFold_failures_EndsOk (doc : DocState) :
    ∀ (l : List (Option Nat)) (st : List Nat × List String × List Nat),
      (∀ m ∈ st.2.1, EndsOk m) →
      ∀ m ∈ (detachFold doc l st).2.1, EndsOk m := by
  intro l
  induction l with
  | nil => intro st h; exact h
  | cons o rest ih =>
    intro st h
    cases o with
    | none => exact ih st h
    | some jid =>
      show ∀ m ∈ (detachFold doc (some jid :: rest) st).2.1, EndsOk m
      unfold detachFold
      cases hel : docGetElem doc jid with
      | none =>
        refine ih _ ?_
        intro m hm
        dsimp only at hm
        by_cases hb : jid ∈ st.2.2
        · rw [if_pos hb] at hm
          exact h m hm
        · rw [if_neg hb] at hm
          rcases List.mem_append.mp hm with h1 | h1
          · exact h m h1
          · have : m = build_element_descr none := by simpa using h1
            rw [this]
            exact EndsOk_descr none
      | some e =>
        dsimp only
        by_cases hho : (!e.isHostObject) = true
        · rw [if_pos hho]
          refine ih _ ?_
          intro m hm
          dsimp only at hm
          by_cases hb : jid ∈ st.2.2
          · rw [if_pos hb] at hm
            exact h m hm
          · rw [if_neg hb] at hm
            rcases List.mem_append.mp hm with h1 | h1
            · exact h m h1
            · have : m = build_element_descr (some e) := by simpa using h1
              rw [this]
              exact EndsOk_descr (some e)
        · rw [if_neg hho]
          by_cases hu : e.unjoinOk = true
          · rw [if_pos hu]
            exact ih _ h
          · rw [if_neg hu]
            refine ih _ ?_
            intro m hm
            dsimp only at hm
            rcases List.mem_append.mp hm with h1 | h1
            · exact h m h1
            · have : m = build_element_descr (some e) := by simpa using h1
              rw [this]
              exact EndsOk_descr (some e)

theorem try_detach_EndsOk (doc : DocState) (w : WallState) :
    ∀ m ∈ (try_detach_joined_elements doc w).2, EndsOk m := by
  unfold try_detach_joined_elements
  exact detachFold_failures_EndsOk doc w.joinedIds ([], [], []) (by simp)

theorem depDescrs_fold_EndsOk (doc : DocState) (w : WallState)
    (det dj : List Nat) :
    ∀ (l : List (Option Nat)) (acc : List String),
      (∀ m ∈ acc, EndsOk m) →
      ∀ m ∈ l.foldl
        (fun acc oid =>
          match oid with
          | none => acc
          | some did =>
            if did == w.id then acc
            else if did ∈ det then acc
            else if did ∈ dj then acc
            else
              match docGetElem doc did with
              | none => acc
              | some e =>
                if !e.isValidObject then acc
                else acc ++ [build_element_descr (some e)]) acc,
        EndsOk m := by
  intro l
  induction l with
  | nil => intro acc h; exact h
  | cons o rest ih =>
    intro acc h
    rw [List.foldl_cons]
    refine ih _ ?_
    cases o with
    | none => exact h
    | some did =>
      dsimp only
      by_cases h1 : (did == w.id) = true
      · rw [if_pos h1]; exact h
      · rw [if_neg h1]
        by_cases h2 : did ∈ det
        · rw [if_pos h2]; exact h
        · rw [if_neg h2]
          by_cases h3 : did ∈ dj
          · rw [if_pos h3]; exact h
          · rw [if_neg h3]
            cases hel : docGetElem doc did with
            | none => exact h
            | some e =>
              dsimp only
              by_cases h4 : (!e.isValidObject) = true
              · rw [if_pos h4]; exact h
              · rw [if_neg h4]
                intro m hm
                rcases List.mem_append.mp hm with hm1 | hm1
                · exact h m hm1
                · have : m = build_element_descr (some e) := by simpa using hm1
                  rw [this]
                  exact EndsOk_descr (some e)

theorem depDescrs_EndsOk (doc : DocState) (w : WallState) (det dj : List Nat) :
    ∀ m ∈ depDescrs doc w det dj, EndsOk m := by
  unfold depDescrs
  exact depDescrs_fold_EndsOk doc w det dj w.dependents [] (by simp)

theorem fragOk_frag1 {fs : List String} (hfs : fs ≠ [])
    (hall : ∀ m ∈ fs, EndsOk m) : FragOk (frag1 fs) := by
  unfold frag1
  refine FragOk_of_edges
    (StartOk_append_left (StartOk_of_concrete 'н' (by decide) (by decide))
      (by decide) _)
    (EndsOk_append _ (joinWith_EndsOk ", " (sortedSet fs)
      (sortedSet_ne_nil hfs) (fun s hs => hall s (mem_sortedSet hs))))

theorem fragOk_frag2 : FragOk frag2 := ⟨by decide, by decide⟩

theorem fragOk_frag3 (o : String) : FragOk (frag3 o) := by
  unfold frag3
  split
  · refine FragOk_of_edges ?_ ?_
    · exact StartOk_append_left
        (StartOk_append_left (StartOk_of_concrete 'с' (by decide) (by decide))
          (by decide) o)
        (data_append_ne_nil_left (by decide) o) _
    · exact EndsOk_append _ (EndsOk_of_concrete '\"' (by decide) (by decide))
  · exact ⟨by decide, by decide⟩

theorem fragOk_frag4 (nm : String) : FragOk (frag4 nm) := by
  unfold frag4
  refine FragOk_of_edges ?_ ?_
  · exact StartOk_append_left
      (StartOk_append_left (StartOk_of_concrete 'р' (by decide) (by decide))
        (by decide) nm)
      (data_append_ne_nil_left (by decide) nm) _
  · exact EndsOk_append _ (EndsOk_of_concrete 'м' (by decide) (by decide))

theorem fragOk_frag5 : FragOk frag5 := ⟨by decide, by decide⟩

theorem fragOk_frag6 : FragOk frag6 := ⟨by decide, by decide⟩

theorem fragOk_frag7 (doc : DocState) (oid : Nat) : FragOk (frag7 doc oid) := by
  unfold frag7
  exact FragOk_of_edges
    (StartOk_append_left (StartOk_of_concrete 'с' (by decide) (by decide))
      (by decide) _)
    (EndsOk_append _ (EndsOk_build_design doc oid))

theorem fragOk_frag8 (doc : DocState) (aid : Nat) : FragOk (frag8 doc aid) := by
  unfold frag8
  exact FragOk_of_edges
    (StartOk_append_left (StartOk_of_concrete 'с' (by decide) (by decide))
      (by decide) _)
    (EndsOk_append _ (EndsOk_build_assembly doc aid))

theorem fragOk_frag9 : FragOk frag9 := ⟨by decide, by decide⟩

theorem fragOk_frag10 (doc : DocState) (pid : Nat) :
    FragOk (frag10 doc pid) := by
  unfold frag10
  refine FragOk_of_edges ?_ ?_
  · exact StartOk_append_left
      (StartOk_append_left (StartOk_of_concrete 'с' (by decide) (by decide))
        (by decide) _)
      (data_append_ne_nil_left (by decide) _) _
  · exact EndsOk_append _ (EndsOk_of_concrete 'а' (by decide) (by decide))

theorem fragOk_frag11 {ds : List String} (hds : ds ≠ [])
    (hall : ∀ m ∈ ds, EndsOk m) : FragOk (frag11 ds) := by
  unfold frag11
  refine FragOk_of_edges
    (StartOk_append_left (StartOk_of_concrete 'у' (by decide) (by decide))
      (by decide) _)
    (EndsOk_append _ (joinWith_EndsOk ", " (sortedSet ds)
      (sortedSet_ne_nil hds) (fun s hs => hall s (mem_sortedSet hs))))

theorem ne_of_discr {a b : String} {m n : Nat} (ha : fragDiscr a = m)
    (hb : fragDiscr b = n) (h : m ≠ n) : a ≠ b :=
  fun he => h (by rw [← ha, ← hb, he])

theorem blocking_checks_pairwise (doc : DocState) (w : WallState) :
    List.Pairwise (fun p q : Bool × String =>
      p.1 = true → q.1 = true → p.2 ≠ q.2) (blocking_checks doc w) := by
  have d4 : (doc.isWorkshared && (w.worksetValid &&
      (match w.workset with | some ws => !ws.2 | none => false))) = true →
      fragDiscr (match w.workset with
        | some ws => frag4 ws.1
        | none => "") = 4 := by
    cases hwk : w.workset
    · intro ht; simp at ht
    · intro _; exact discr_frag4 _
  have d7 : (match w.designOptionId with
      | some oid =>
        (match doc.activeDesignOption with
         | some a => oid != a
         | none => true)
      | none => false) = true →
      fragDiscr (match w.designOptionId with
        | some oid => frag7 doc oid
        | none => "") = 7 := by
    cases hdo : w.designOptionId
    · intro ht; simp at ht
    · intro _; exact discr_frag7 doc _
  have d8 : (match w.assemblyId with
      | some _ => true
      | none => false) = true →
      fragDiscr (match w.assemblyId with
        | some aid => frag8 doc aid
        | none => "") = 8 := by
    cases has : w.assemblyId
    · intro ht; simp at ht
    · intro _; exact discr_frag8 doc _
  have d10 : (match w.phaseParam with
      | some pid =>
        (match doc.activePhaseId with
         | some ap => ap != pid
         | none => false)
      | none => false) = true →
      fragDiscr (match w.phaseParam with
        | some pid => frag10 doc pid
        | none => "") = 10 := by
    cases hph : w.phaseParam
    · intro ht; simp at ht
    · intro _; exact discr_frag10 doc _
  unfold blocking_checks
  dsimp only
  refine List.Pairwise.cons ?_ (List.Pairwise.cons ?_ (List.Pairwise.cons ?_ (List.Pairwise.cons ?_ (List.Pairwise.cons ?_ (List.Pairwise.cons ?_ (List.Pairwise.cons ?_ (List.Pairwise.cons ?_ (List.Pairwise.cons ?_ (List.Pairwise.cons ?_ List.Pairwise.nil)))))))))
  · intro q hq
    simp only [List.mem_cons, List.not_mem_nil, or_false] at hq
    rcases hq with rfl | rfl | rfl | rfl | rfl | rfl | rfl | rfl | rfl
    · exact fun h1 h2 => ne_of_discr (discr_frag1 _) discr_frag2 (by decide)
    · exact fun h1 h2 => ne_of_discr (discr_frag1 _) (discr_frag3 _) (by decide)
    · exact fun h1 h2 => ne_of_discr (discr_frag1 _) (d4 h2) (by decide)
    · exact fun h1 h2 => ne_of_discr (discr_frag1 _) discr_frag5 (by decide)
    · exact fun h1 h2 => ne_of_discr (discr_frag1 _) discr_frag6 (by decide)
    · exact fun h1 h2 => ne_of_discr (discr_frag1 _) (d7 h2) (by decide)
    · exact fun h1 h2 => ne_of_discr (discr_frag1 _) (d8 h2) (by decide)
    · exact fun h1 h2 => ne_of_discr (discr_frag1 _) discr_frag9 (by decide)
    · exact fun h1 h2 => ne_of_discr (discr_frag1 _) (d10 h2) (by decide)
  · intro q hq
    simp only [List.mem_cons, List.not_mem_nil, or_false] at hq
    rcases hq with rfl | rfl | rfl | rfl | rfl | rfl | rfl | rfl
    · exact fun h1 h2 => ne_of_discr discr_frag2 (discr_frag3 _) (by decide)
    · exact fun h1 h2 => ne_of_discr discr_frag2 (d4 h2) (by decide)
    · exact fun h1 h2 => ne_of_discr discr_frag2 discr_frag5 (by decide)
    · exact fun h1 h2 => ne_of_discr discr_frag2 discr_frag6 (by decide)
    · exact fun h1 h2 => ne_of_discr discr_frag2 (d7 h2) (by decide)
    · exact fun h1 h2 => ne_of_discr discr_frag2 (d8 h2) (by decide)
    · exact fun h1 h2 => ne_of_discr discr_frag2 discr_frag9 (by decide)
    · exact fun h1 h2 => ne_of_discr discr_frag2 (d10 h2) (by decide)
  · intro q hq
    simp only [List.mem_cons, List.not_mem_nil, or_false] at hq
    rcases hq with rfl | rfl | rfl | rfl | rfl | rfl | rfl
    · exact fun h1 h2 => ne_of_discr (discr_frag3 _) (d4 h2) (by decide)
    · exact fun h1 h2 => ne_of_discr (discr_frag3 _) discr_frag5 (by decide)
    · exact fun h1 h2 => ne_of_discr (discr_frag3 _) discr_frag6 (by decide)
    · exact fun h1 h2 => ne_of_discr (discr_frag3 _) (d7 h2) (by decide)
    · exact fun h1 h2 => ne_of_discr (discr_frag3 _) (d8 h2) (by decide)
    · exact fun h1 h2 => ne_of_discr (discr_frag3 _) discr_frag9 (by decide)
    · exact fun h1 h2 => ne_of_discr (discr_frag3 _) (d10 h2) (by decide)
  · intro q hq
    simp only [List.mem_cons, List.not_mem_nil, or_false] at hq
    rcases hq with rfl | rfl | rfl | rfl | rfl | rfl
    · exact fun h1 h2 => ne_of_discr (d4 h1) discr_frag5 (by decide)
    · exact fun h1 h2 => ne_of_discr (d4 h1) discr_frag6 (by decide)
    · exact fun h1 h2 => ne_of_discr (d4 h1) (d7 h2) (by decide)
    · exact fun h1 h2 => ne_of_discr (d4 h1) (d8 h2) (by decide)
    · exact fun h1 h2 => ne_of_discr (d4 h1) discr_frag9 (by decide)
    · exact fun h1 h2 => ne_of_discr (d4 h1) (d10 h2) (by decide)
  · intro q hq
    simp only [List.mem_cons, List.not_mem_nil, or_false] at hq
    rcases hq with rfl | rfl | rfl | rfl | rfl
    · exact fun h1 h2 => ne_of_discr discr_frag5 discr_frag6 (by decide)
    · exact fun h1 h2 => ne_of_discr discr_frag5 (d7 h2) (by decide)
    · exact fun h1 h2 => ne_of_discr discr_frag5 (d8 h2) (by decide)
    · exact fun h1 h2 => ne_of_discr discr_frag5 discr_frag9 (by decide)
    · exact fun h1 h2 => ne_of_discr discr_frag5 (d10 h2) (by decide)
  · intro q hq
    simp only [List.mem_cons, List.not_mem_nil, or_false] at hq
    rcases hq with rfl | rfl | rfl | rfl
    · exact fun h1 h2 => ne_of_discr discr_frag6 (d7 h2) (by decide)
    · exact fun h1 h2 => ne_of_discr discr_frag6 (d8 h2) (by decide)
    · exact fun h1 h2 => ne_of_discr discr_frag6 discr_frag9 (by decide)
    · exact fun h1 h2 => ne_of_discr discr_frag6 (d10 h2) (by decide)
  · intro q hq
    simp only [List.mem_cons, List.not_mem_nil, or_false] at hq
    rcases hq with rfl | rfl | rfl
    · exact fun h1 h2 => ne_of_discr (d7 h1) (d8 h2) (by decide)
    · exact fun h1 h2 => ne_of_discr (d7 h1) discr_frag9 (by decide)
    · exact fun h1 h2 => ne_of_discr (d7 h1) (d10 h2) (by decide)
  · intro q hq
    simp only [List.mem_cons, List.not_mem_nil, or_false] at hq
    rcases hq with rfl | rfl
    · exact fun h1 h2 => ne_of_discr (d8 h1) discr_frag9 (by decide)
    · exact fun h1 h2 => ne_of_discr (d8 h1) (d10 h2) (by decide)
  · intro q hq
    simp only [List.mem_cons, List.not_mem_nil, or_false] at hq
    rcases hq with rfl
    · exact fun h1 h2 => ne_of_discr discr_frag9 (d10 h2) (by decide)
  · intro q hq
    simp at hq

theorem blocking_checks_fragOk (doc : DocState) (w : WallState) :
    ∀ p ∈ blocking_checks doc w, p.1 = true →
      pyStrip p.2 = p.2 ∧ p.2 ≠ "" ∧ p.2 ∉ ([] : List String) := by
  have hpay : ∀ m ∈ (if doc.isModifiable then try_detach_joined_elements doc w
      else (([], []) : List Nat × List String)).2, EndsOk m := by
    cases hmod : doc.isModifiable
    · simp
    · simpa using try_detach_EndsOk doc w
  intro p hp ht
  unfold blocking_checks at hp
  dsimp only at hp
  simp only [List.mem_cons, List.not_mem_nil, or_false] at hp
  rcases hp with rfl | rfl | rfl | rfl | rfl | rfl | rfl | rfl | rfl | rfl
  · have hne : (if doc.isModifiable then try_detach_joined_elements doc w
        else (([], []) : List Nat × List String)).2 ≠ [] := by
      simpa using ht
    obtain ⟨h1, h2⟩ := fragOk_frag1 hne hpay
    exact ⟨h1, h2, by simp⟩
  · exact ⟨fragOk_frag2.1, fragOk_frag2.2, by simp⟩
  · exact ⟨(fragOk_frag3 _).1, (fragOk_frag3 _).2, by simp⟩
  · cases hwk : w.workset with
    | none =>
      rw [hwk] at ht
      simp at ht
    | some ws =>
      exact ⟨(fragOk_frag4 ws.1).1, (fragOk_frag4 ws.1).2, by simp⟩
  · exact ⟨fragOk_frag5.1, fragOk_frag5.2, by simp⟩
  · exact ⟨fragOk_frag6.1, fragOk_frag6.2, by simp⟩
  · cases hdo : w.designOptionId with
    | none =>
      rw [hdo] at ht
      simp at ht
    | some oid =>
      exact ⟨(fragOk_frag7 doc oid).1, (fragOk_frag7 doc oid).2, by simp⟩
  · cases has : w.assemblyId with
    | none =>
      rw [has] at ht
      simp at ht
    | some aid =>
      exact ⟨(fragOk_frag8 doc aid).1, (fragOk_frag8 doc aid).2, by simp⟩
  · exact ⟨fragOk_frag9.1, fragOk_frag9.2, by simp⟩
  · cases hph : w.phaseParam with
    | none =>
      rw [hph] at ht
      simp at ht
    | some pid =>
      exact ⟨(fragOk_frag10 doc pid).1, (fragOk_frag10 doc pid).2, by simp⟩

/-- **C1.** For every document and wall state, `can_delete_original_wall`
returns its verdict and reason as follows: the reason is the
semicolon-join of exactly one human-readable fragment per true blocking
condition, in source order (the dependent-elements condition, per the
code, only contributing when no other condition fired), and the verdict is
`true` with an empty reason exactly when no blocking condition holds —
equivalently, `allowed = false` iff at least one of the enumerated
conditions (one of the ten unconditional checks, or remaining blocking
dependents) is true. -/
theorem C1_can_delete (doc : DocState) (w : WallState) (det : List Nat) :
    can_delete_original_wall doc w det =
      (decide (spec_blocking_fragments doc w det = []),
       joinWith "; " (spec_blocking_fragments doc w det)) ∧
    ((can_delete_original_wall doc w det).1 = false ↔
      (∃ p ∈ blocking_checks doc w, p.1 = true) ∨
        depDescrs doc w det
          (if doc.isModifiable then try_detach_joined_elements doc w
           else ([], [])).1 ≠ []) := by
  have hrun := runChecks_spec (blocking_checks doc w) []
    (blocking_checks_fragOk doc w) (blocking_checks_pairwise doc w)
  rw [List.nil_append] at hrun
  have heq : can_delete_original_wall doc w det =
      (decide (spec_blocking_fragments doc w det = []),
       joinWith "; " (spec_blocking_fragments doc w det)) := by
    rw [can_delete_shape doc w det]
    dsimp only
    rw [hrun]
    unfold spec_blocking_fragments
    dsimp only
    have hdsE := depDescrs_EndsOk doc w det
      (if doc.isModifiable then try_detach_joined_elements doc w
       else ([], [])).1
    revert hdsE
    generalize hD : depDescrs doc w det
      (if doc.isModifiable then try_detach_joined_elements doc w
       else ([], [])).1 = ds
    generalize hB : ((blocking_checks doc w).filter (fun p => p.1)).map
      (fun p => p.2) = base
    intro hdsE
    cases base with
    | nil =>
      by_cases hd : ds = []
      · subst hd
        simp [joinWith]
      · have hOk := fragOk_frag11 hd hdsE
        have hadd : add_blocking_reason [] (frag11 ds) = [frag11 ds] := by
          unfold add_blocking_reason
          rw [if_neg hOk.2]
          dsimp only
          rw [hOk.1, if_neg hOk.2, if_neg (by simp)]
          rfl
        simp [hadd, hd, joinWith]
    | cons b bs =>
      simp [joinWith]
  refine ⟨heq, ?_⟩
  rw [heq]
  have hbase_iff : ((blocking_checks doc w).filter (fun p => p.1)).map
      (fun p => p.2) = [] ↔ ∀ p ∈ blocking_checks doc w, ¬ p.1 = true := by
    simp [List.map_eq_nil_iff, List.filter_eq_nil_iff]
  unfold spec_blocking_fragments
  dsimp only
  by_cases hbase0 : ((blocking_checks doc w).filter (fun p => p.1)).map
      (fun p => p.2) = []
  · by_cases hd0 : depDescrs doc w det
        (if doc.isModifiable then try_detach_joined_elements doc w
         else ([], [])).1 = []
    · rw [if_neg (fun hcon => hcon.2 hd0)]
      rw [hbase0]
      constructor
      · intro h
        simp at h
      · intro h
        rcases h with ⟨p, hp, hpt⟩ | hdd
        · exact absurd hpt (hbase_iff.mp hbase0 p hp)
        · exact absurd hd0 hdd
    · rw [if_pos ⟨hbase0, hd0⟩]
      simp only [decide_eq_false_iff_not]
      constructor
      · intro _
        exact Or.inr hd0
      · intro _
        simp
  · rw [if_neg (fun hcon => hbase0 hcon.1)]
    simp only [decide_eq_false_iff_not]
    constructor
    · intro _
      refine Or.inl ?_
      by_contra hno
      push_neg at hno
      exact hbase0 (hbase_iff.mpr (by simpa using hno))
    · intro _
      exact hbase0
